import Mathlib

/-!
# ScholarGraph3D — verification of the fusion / graph-analytics core

Shallow embedding of the Python modules
`integrations/data_fusion.py`, `graph/bridge_detector.py`,
`graph/gap_detector.py`, `graph/similarity.py`,
`graph/trend_analyzer.py`, `graph/incremental_layout.py` and the
background citation-enrichment task of `routers/search.py`, together
with theorems settling the testable properties stated in the design
document.

Numeric conventions: Python floats are modelled as exact rationals `ℚ`
wherever the code only adds, multiplies and compares (ranks, RRF
scores, gap strengths, percentiles); cosine similarities, which need
square roots, are modelled over `ℝ`.  Python dicts are modelled as
insertion-ordered association lists, matching CPython's documented
iteration order.
-/

namespace ScholarGraph

/-! ## Insertion-ordered dictionaries (Python `dict`) -/

/-- `dset m a b` is Python `m[a] = b`: overwrite in place if the key is
present, otherwise append at the end (CPython insertion order). -/
def dset {κ ν : Type} [BEq κ] : List (κ × ν) → κ → ν → List (κ × ν)
  | [], a, b => [(a, b)]
  | (x, y) :: t, a, b => if x == a then (a, b) :: t else (x, y) :: dset t a b

/-- `dget? m a` is Python `m.get(a)`. -/
def dget? {κ ν : Type} [BEq κ] (m : List (κ × ν)) (a : κ) : Option ν :=
  (m.find? (fun p => p.1 == a)).map (·.2)

/-- `dgetD m a d` is Python `m.get(a, d)`. -/
def dgetD {κ ν : Type} [BEq κ] (m : List (κ × ν)) (a : κ) (d : ν) : ν :=
  (dget? m a).getD d

/-- Key membership, Python `a in m`. -/
def dmem {κ ν : Type} [BEq κ] (m : List (κ × ν)) (a : κ) : Bool :=
  (dget? m a).isSome

/-- `dpop m a` is Python `m.pop(a)` (the removed value is read with
`dget?` before popping); the remaining entries keep their order. -/
def dpop {κ ν : Type} [BEq κ] (m : List (κ × ν)) (a : κ) : List (κ × ν) :=
  m.filter (fun p => !(p.1 == a))

/-! ## String normalisation (`data_fusion.py`) -/

/-- Python `s.lower()` (ASCII case folding, structurally recursive so
that the kernel can evaluate it). -/
def lowerStr (s : String) : String := ⟨s.data.map Char.toLower⟩

/-- Python `s.strip()`: drop leading and trailing whitespace. -/
def trimStr (s : String) : String :=
  ⟨((s.data.dropWhile Char.isWhitespace).reverse.dropWhile Char.isWhitespace).reverse⟩

/-- Python `s.lower().strip()`, the title dedup key. -/
def normTitle (s : String) : String := trimStr (lowerStr s)

/-- One pass of the DOI-prefix stripping loop
(`if doi.startswith(prefix): doi = doi[len(prefix):]`). -/
def stripDoiPrefix (p s : String) : String :=
  if p.data.isPrefixOf s.data then ⟨s.data.drop p.data.length⟩ else s

/-- `_normalize_doi`: `None`/`""` map to `None`; otherwise strip,
lowercase, and remove the three URL/scheme prefixes in order.  Note a
whitespace-only DOI normalises to `some ""` (an empty, falsy string),
not to `none`, exactly as in the Python code. -/
def normalizeDoi : Option String → Option String
  | none => none
  | some s =>
      if s = "" then none
      else
        let d := lowerStr (trimStr s)
        let d := stripDoiPrefix "https://doi.org/" d
        let d := stripDoiPrefix "http://doi.org/" d
        let d := stripDoiPrefix "doi:" d
        some d

/-- Python truthiness of an optional string (`if doi:`). -/
def truthy : Option String → Bool
  | none => false
  | some s => s ≠ ""

/-! ## Records (`OpenAlexWork`, `SemanticScholarPaper`, `UnifiedPaper`)

Only the fields read by `_merge_results` and by the claims are carried;
all of them are taken directly from the dataclass definitions. -/

structure OAWork where
  id : String
  doi : Option String
  title : String
  abstract : Option String
  year : Option Int
  citation_count : Int
  deriving DecidableEq, Repr

structure S2Paper where
  paper_id : String
  doi : Option String
  title : String
  abstract : Option String
  year : Option Int
  tldr : Option String
  embedding : Option (List ℚ)
  deriving DecidableEq, Repr

structure UnifiedPaper where
  doi : Option String
  title : String
  abstract : Option String
  year : Option Int
  tldr : Option String
  embedding : Option (List ℚ)
  s2_paper_id : Option String
  oa_work_id : Option String
  rrf_score : ℚ
  deriving DecidableEq, Repr

/-- Python truthiness of an optional abstract/tldr string. -/
def truthyStr (s : Option String) : Bool :=
  match s with
  | none => false
  | some t => t ≠ ""

/-- `_oa_work_to_unified` (venue/topics/authors dropped: never read by
the merge logic or the claims). -/
def oaWorkToUnified (w : OAWork) : UnifiedPaper :=
  { doi := normalizeDoi w.doi
    title := w.title
    abstract := w.abstract
    year := w.year
    tldr := none
    embedding := none
    s2_paper_id := none
    oa_work_id := some w.id
    rrf_score := 0 }

/-- `_s2_paper_to_unified`. -/
def s2PaperToUnified (p : S2Paper) : UnifiedPaper :=
  { doi := normalizeDoi p.doi
    title := p.title
    abstract := p.abstract
    year := p.year
    tldr := p.tldr
    embedding := p.embedding
    s2_paper_id := some p.paper_id
    oa_work_id := none
    rrf_score := 0 }

/-! ## Rank maps and Reciprocal Rank Fusion (`_merge_results`, part 1) -/

/-- The RRF constant `_RRF_K = 60`. -/
def RRF_K : ℚ := 60

/-- Generic `for rank, x in enumerate(results): if key(x): map[key(x)] = rank`
loop (both rank maps have this shape); later occurrences overwrite. -/
def rankMapAux {α : Type} (key : α → Option String) :
    ℕ → List α → List (String × ℕ) → List (String × ℕ)
  | _, [], m => m
  | i, x :: t, m =>
      rankMapAux key (i + 1) t
        (match key x with
         | some d => dset m d i
         | none => m)

/-- The truthy normalised DOI of a ranked entry, if any. -/
def keyDoi (od : Option String) : Option String :=
  match normalizeDoi od with
  | some d => if d = "" then none else some d
  | none => none

/-- The normalised title of a truthy-titled ranked entry, if any. -/
def keyTitle (t : String) : Option String :=
  if t = "" then none else some (normTitle t)

/-- `oa_rank_by_doi` / `s2_rank_by_doi`: walk the ranked list, storing
the rank of each truthy normalised DOI (later occurrences overwrite). -/
def rankByDoi (dois : List (Option String)) : List (String × ℕ) :=
  rankMapAux keyDoi 0 dois []

/-- `oa_rank_by_title` / `s2_rank_by_title` over truthy titles. -/
def rankByTitle (titles : List String) : List (String × ℕ) :=
  rankMapAux keyTitle 0 titles []

/-- The rank the fusion code uses for one source (the body of the two
`.get` chains in `_compute_rrf`): DOI lookup first when the record has
a truthy DOI, then title lookup, then the default `n`. -/
def rrfRank (rankD rankT : List (String × ℕ)) (n : ℕ)
    (doi : Option String) (title : String) : ℕ :=
  let titleKey := normTitle title
  if truthy doi then
    match doi with
    | some d => (dget? rankD d).getD (dgetD rankT titleKey n)
    | none => dgetD rankT titleKey n
  else dgetD rankT titleKey n

/-- `_compute_rrf` for given source lists.  `n_oa = max(len(oa), 1)`
and `n_s2 = max(len(s2), 1)` exactly as in the code. -/
def computeRRF (oaDois : List (Option String)) (oaTitles : List String)
    (s2Dois : List (Option String)) (s2Titles : List String)
    (doi : Option String) (title : String) : ℚ :=
  let nOA := max oaDois.length 1
  let nS2 := max s2Dois.length 1
  let oaRank := rrfRank (rankByDoi oaDois) (rankByTitle oaTitles) nOA doi title
  let s2Rank := rrfRank (rankByDoi s2Dois) (rankByTitle s2Titles) nS2 doi title
  1 / (RRF_K + oaRank) + 1 / (RRF_K + s2Rank)

/-! ## `_merge_results`, part 2: the three merge phases -/

/-- Mutable state of the merge loop: the output list and the two
`seen` sets (modelled as lists, only membership is used). -/
structure FusionState where
  merged : List UnifiedPaper
  seenD : List String
  seenT : List String
  deriving Repr

/-- `s2_by_doi`: index S2 results by truthy normalised DOI. -/
def buildS2ByDoi (s2 : List S2Paper) : List (String × S2Paper) :=
  s2.foldl
    (fun m p =>
      match normalizeDoi p.doi with
      | some d => if d ≠ "" then dset m d p else m
      | none => m)
    []

/-- `s2_by_title`: index S2 results with truthy title by normalised title. -/
def buildS2ByTitle (s2 : List S2Paper) : List (String × S2Paper) :=
  s2.foldl (fun m p => if p.title ≠ "" then dset m (normTitle p.title) p else m) []

/-- The enrichment match search in the OA loop: by DOI first
(`if doi and doi in s2_by_doi`), else by truthy title
(`elif oa_work.title`), popping the match from the corresponding
dictionary. -/
def findS2Match (doi : Option String) (title : String)
    (s2d s2t : List (String × S2Paper)) :
    Option S2Paper × List (String × S2Paper) × List (String × S2Paper) :=
  if truthy doi && dmem s2d (doi.getD "") then
    (dget? s2d (doi.getD ""), dpop s2d (doi.getD ""), s2t)
  else if title ≠ "" then
    match dget? s2t (normTitle title) with
    | some p => (some p, s2d, dpop s2t (normTitle title))
    | none => (none, s2d, s2t)
  else (none, s2d, s2t)

/-- Enrich an OA-derived unified paper with a matched S2 paper:
S2 id, tldr and embedding are copied, and the abstract falls back to
the S2 abstract when the OA abstract is falsy. -/
def enrich (u : UnifiedPaper) : Option S2Paper → UnifiedPaper
  | none => u
  | some p =>
      let u := { u with s2_paper_id := some p.paper_id,
                        tldr := p.tldr, embedding := p.embedding }
      if truthyStr u.abstract = false ∧ truthyStr p.abstract then
        { u with abstract := p.abstract }
      else u

/-- The final abstract fallback: use the tldr when the abstract is falsy. -/
def abstractFallback (u : UnifiedPaper) : UnifiedPaper :=
  if truthyStr u.abstract = false ∧ truthyStr u.tldr then
    { u with abstract := u.tldr }
  else u

/-- The unified record emitted for one OA work (enriched with the S2
match found in the current dictionaries, with abstract fallback and
RRF score applied). -/
def phase1U (rrf : Option String → String → ℚ)
    (s2d s2t : List (String × S2Paper)) (w : OAWork) : UnifiedPaper :=
  { abstractFallback
      (enrich (oaWorkToUnified w)
        (findS2Match (normalizeDoi w.doi) w.title s2d s2t).1) with
    rrf_score := rrf (normalizeDoi w.doi) w.title }

/-- One iteration of the OA loop (`for oa_work in oa_results`). -/
def phase1Step (rrf : Option String → String → ℚ)
    (acc : FusionState × List (String × S2Paper) × List (String × S2Paper))
    (w : OAWork) :
    FusionState × List (String × S2Paper) × List (String × S2Paper) :=
  let st := acc.1
  let doi := normalizeDoi w.doi
  let m := findS2Match doi w.title acc.2.1 acc.2.2
  (⟨st.merged ++ [phase1U rrf acc.2.1 acc.2.2 w],
    if truthy doi then doi.getD "" :: st.seenD else st.seenD,
    if w.title ≠ "" then normTitle w.title :: st.seenT else st.seenT⟩,
   m.2.1, m.2.2)

/-- The unified record emitted for an S2-only paper. -/
def s2Unified (rrf : Option String → String → ℚ)
    (doi : Option String) (p : S2Paper) : UnifiedPaper :=
  { abstractFallback (s2PaperToUnified p) with rrf_score := rrf doi p.title }

/-- One iteration of the remaining-`s2_by_doi` loop. -/
def phase2Step (rrf : Option String → String → ℚ)
    (st : FusionState) (e : String × S2Paper) : FusionState :=
  if e.1 ∈ st.seenD then st
  else
    let tk := if e.2.title ≠ "" then normTitle e.2.title else ""
    if tk ≠ "" ∧ tk ∉ st.seenT then
      ⟨st.merged ++ [s2Unified rrf (some e.1) e.2], e.1 :: st.seenD, tk :: st.seenT⟩
    else st

/-- One iteration of the remaining-`s2_by_title` loop. -/
def phase3Step (rrf : Option String → String → ℚ)
    (st : FusionState) (e : String × S2Paper) : FusionState :=
  if e.1 ∈ st.seenT then st
  else
    let doi := normalizeDoi e.2.doi
    if truthy doi && decide (doi.getD "" ∈ st.seenD) then st
    else
      ⟨st.merged ++ [s2Unified rrf doi e.2],
       if truthy doi then doi.getD "" :: st.seenD else st.seenD,
       e.1 :: st.seenT⟩

/-- `DataFusionService._merge_results`. -/
def mergeResults (oa : List OAWork) (s2 : List S2Paper) : List UnifiedPaper :=
  let rrf := computeRRF (oa.map (·.doi)) (oa.map (·.title))
                        (s2.map (·.doi)) (s2.map (·.title))
  let acc1 := oa.foldl (phase1Step rrf) (⟨[], [], []⟩, buildS2ByDoi s2, buildS2ByTitle s2)
  let st2 := acc1.2.1.foldl (phase2Step rrf) acc1.1
  let st3 := acc1.2.2.foldl (phase3Step rrf) st2
  st3.merged

/-! ## Deduplication invariant (claim C1) -/

/-- The dedup relation claimed for two fused records (`x` emitted
before `y`): no shared truthy normalised DOI, and records that both
lack a truthy DOI do not share a non-empty normalised title. -/
def DedupOK (x y : UnifiedPaper) : Prop :=
  (∀ d : String, x.doi = some d → d ≠ "" → y.doi ≠ some d) ∧
  (truthy x.doi = false → truthy y.doi = false →
    normTitle x.title ≠ "" → normTitle x.title ≠ normTitle y.title)

/-- Well-formedness of `s2_by_doi`: every key is the truthy normalised
DOI of its value. -/
def DoiKeyed (m : List (String × S2Paper)) : Prop :=
  ∀ p ∈ m, normalizeDoi p.2.doi = some p.1 ∧ p.1 ≠ ""

/-- Well-formedness of `s2_by_title`: every key is the normalised
title of its (truthy-titled) value. -/
def TitleKeyed (m : List (String × S2Paper)) : Prop :=
  ∀ p ∈ m, p.2.title ≠ "" ∧ normTitle p.2.title = p.1

/-- Normalised titles of the already-emitted records that lack a
truthy DOI and have a non-empty normalised title (ghost set for the
phase-1 induction). -/
def tnd (l : List UnifiedPaper) : List String :=
  (l.filter (fun r => !truthy r.doi && normTitle r.title != "")).map
    (fun r => normTitle r.title)

/-- Loop invariant of the merge: output pairwise-deduplicated, every
emitted truthy DOI in `seen_dois`, every emitted DOI-less non-empty
title in `seen_titles`. -/
def Inv (st : FusionState) : Prop :=
  st.merged.Pairwise DedupOK ∧
  (∀ r ∈ st.merged, ∀ d : String, r.doi = some d → d ≠ "" → d ∈ st.seenD) ∧
  (∀ r ∈ st.merged, truthy r.doi = false → normTitle r.title ≠ "" →
    normTitle r.title ∈ st.seenT)

/-- Hypothesis of the amended claim C1, DOI side: no two OA works in
the input share a truthy normalised DOI. -/
def OADoiDistinct (w1 w2 : OAWork) : Prop :=
  ∀ d : String, normalizeDoi w1.doi = some d → d ≠ "" → normalizeDoi w2.doi ≠ some d

/-- Hypothesis of the amended claim C1, title side: no two DOI-less OA
works share a non-empty normalised title. -/
def OATitleDistinct (w1 w2 : OAWork) : Prop :=
  truthy (normalizeDoi w1.doi) = false → truthy (normalizeDoi w2.doi) = false →
    normTitle w1.title ≠ "" → normTitle w1.title ≠ normTitle w2.title

/-- A fused record "appears at rank `i`" in a source list: the entry
at position `i` carries the record's truthy normalised DOI, or (for a
record without truthy DOI) a truthy title with the same normalised
title. -/
def appearsAt (dois : List (Option String)) (titles : List String)
    (r : UnifiedPaper) (i : ℕ) : Prop :=
  (∃ d : String, r.doi = some d ∧ d ≠ "" ∧
      ∃ od, dois.get? i = some od ∧ normalizeDoi od = some d) ∨
  (truthy r.doi = false ∧
      ∃ t, titles.get? i = some t ∧ t ≠ "" ∧ normTitle t = normTitle r.title)

/-- Source lists with well-defined ranks: no two entries share a
truthy normalised DOI. -/
def DoiDistinctO (o1 o2 : Option String) : Prop :=
  ∀ d : String, normalizeDoi o1 = some d → d ≠ "" → normalizeDoi o2 ≠ some d

/-- Source lists with well-defined ranks: no two truthy titles share a
normalised title. -/
def TitleDistinctS (t1 t2 : String) : Prop :=
  t1 ≠ "" → t2 ≠ "" → normTitle t1 ≠ normTitle t2

/-- Concrete two-element inputs for the C8 witness. -/
def oaC8 : List OAWork :=
  [⟨"W1", some "10.1/a", "t a", none, none, 0⟩, ⟨"W2", some "10.1/b", "t b", none, none, 0⟩]

def s2C8 : List S2Paper :=
  [⟨"s1", some "10.1/a", "t a", none, none, none, none⟩,
   ⟨"s2", some "10.1/b", "t b", none, none, none, none⟩]

def uXC8 : UnifiedPaper :=
  ⟨some "10.1/a", "t a", none, none, none, none, some "s1", some "W1",
    1 / (60 + ((0 : ℕ) : ℚ)) + 1 / (60 + ((0 : ℕ) : ℚ))⟩

def uYC8 : UnifiedPaper :=
  ⟨some "10.1/b", "t b", none, none, none, none, some "s2", some "W2",
    1 / (60 + ((1 : ℕ) : ℚ)) + 1 / (60 + ((1 : ℕ) : ℚ))⟩

/-! ## Bridge-node detection (`bridge_detector.py`, claim C2) -/

/-- Node input of `detect_bridge_nodes` (`{id, cluster_id}`). -/
structure BNode where
  id : String
  cluster : Int
  deriving DecidableEq, Repr

/-- Edge input of `detect_bridge_nodes` (`{source, target}`). -/
structure BEdge where
  source : String
  target : String
  deriving DecidableEq, Repr

/-- `np.percentile(values, q)` with the default linear interpolation:
sort, take `h = (n-1)·q/100`, and interpolate between the two
neighbouring order statistics.  (numpy raises outside `0 ≤ q ≤ 100`;
the claims only use it in that range.) -/
def npPercentile (l : List ℚ) (q : ℚ) : ℚ :=
  let s := l.insertionSort (· ≤ ·)
  let n := s.length
  let h : ℚ := (n - 1) * q / 100
  let i : ℕ := (⌊h⌋).toNat
  let lo := s.getD i 0
  let hi := s.getD (min (i + 1) (n - 1)) 0
  lo + (h - ⌊h⌋) * (hi - lo)

/-- Python `int(q)`: truncation toward zero. -/
def pyInt (q : ℚ) : Int :=
  if q < 0 then -(⌊-q⌋) else ⌊q⌋

/-- `node_cluster`: last-write-wins map from node id to cluster id. -/
def nodeClusterMap (nodes : List BNode) : List (String × Int) :=
  nodes.foldl (fun m n => dset m n.id n.cluster) []

/-- The cluster of an id, defaulting to the noise sentinel `-1`. -/
def clusterOf (nodes : List BNode) (x : String) : Int :=
  dgetD (nodeClusterMap nodes) x (-1)

/-- `bridge_scores[k].add(c)` on the insertion-ordered dictionary of
per-node credited-cluster sets (a set is modelled as its insertion-order
list of distinct elements). -/
def addCredit (m : List (String × List Int)) (k : String) (c : Int) :
    List (String × List Int) :=
  match dget? m k with
  | some l => dset m k (if c ∈ l then l else l ++ [c])
  | none => m ++ [(k, [c])]

/-- Whether an edge joins two distinct non-noise clusters. -/
def crossEdge (nodes : List BNode) (e : BEdge) : Bool :=
  let sc := clusterOf nodes e.source
  let tc := clusterOf nodes e.target
  !(sc == tc) && !(sc == -1) && !(tc == -1)

/-- The `bridge_scores` dictionary after the edge loop. -/
def bridgeScores (nodes : List BNode) (edges : List BEdge) :
    List (String × List Int) :=
  edges.foldl
    (fun m e =>
      if crossEdge nodes e then
        addCredit (addCredit m e.source (clusterOf nodes e.target))
          e.target (clusterOf nodes e.source)
      else m)
    []

/-- `candidates`: nodes credited with at least two distinct clusters. -/
def bridgeCandidates (nodes : List BNode) (edges : List BEdge) :
    List (String × ℕ) :=
  ((bridgeScores nodes edges).map (fun p => (p.1, p.2.length))).filter
    (fun p => 2 ≤ p.2)

/-- `detect_bridge_nodes` (the returned Python `set` is modelled as
the list of qualifying candidate ids in dictionary order). -/
def detect_bridge_nodes (nodes : List BNode) (edges : List BEdge)
    (top_percentile : ℚ) : List String :=
  if nodes = [] ∨ edges = [] then []
  else if bridgeScores nodes edges = [] then []
  else
    let candidates := bridgeCandidates nodes edges
    if candidates = [] then []
    else
      let scoreValues : List ℚ := candidates.map (fun p => (p.2 : ℚ))
      let threshold : Int :=
        max 2 (pyInt (npPercentile scoreValues ((1 - top_percentile) * 100)))
      (candidates.filter (fun p => threshold ≤ (p.2 : Int))).map (·.1)

/-- The set of distinct other clusters credited to `y` by the
cross-cluster edges (the independent, order-free description used to
state claim C2). -/
def creditedClusters (nodes : List BNode) (edges : List BEdge) (y : String) :
    Finset Int :=
  ((edges.filter (crossEdge nodes)).filterMap
    (fun e =>
      if e.source = y then some (clusterOf nodes e.target)
      else if e.target = y then some (clusterOf nodes e.source)
      else none)).toFinset

/-- Concrete graph for C2: node `A` bridges clusters 1 and 2 (score 2),
node `B` bridges clusters 1–5 (score 5). -/
def nsC2 : List BNode :=
  [⟨"A", 0⟩, ⟨"B", 0⟩, ⟨"x1", 1⟩, ⟨"x2", 2⟩,
   ⟨"y1", 1⟩, ⟨"y2", 2⟩, ⟨"y3", 3⟩, ⟨"y4", 4⟩, ⟨"y5", 5⟩]

def esC2 : List BEdge :=
  [⟨"A", "x1"⟩, ⟨"A", "x2"⟩, ⟨"B", "y1"⟩, ⟨"B", "y2"⟩, ⟨"B", "y3"⟩,
   ⟨"B", "y4"⟩, ⟨"B", "y5"⟩]

/-! ## Gap detection (`gap_detector.py`, claim C3)

The embedding carries the fields that feed the gap-strength pipeline
(cluster pair, sizes, strength).  `bridge_papers` / `potential_edges` /
`research_questions` are presentation-only payload computed from
embeddings with square roots; they are never read by the strength
computation, the adaptive threshold, the filter or the sort, and no
claim mentions them, so they are omitted from the record. -/

structure GPaper where
  id : String
  cluster : Int
  embedding : Option (List ℚ)
  deriving DecidableEq, Repr

structure GCluster where
  id : Int
  label : String
  deriving DecidableEq, Repr

structure GEdge where
  source : String
  target : String
  deriving DecidableEq, Repr

structure StructuralGap where
  cluster_a : Int
  cluster_b : Int
  size_a : ℕ
  size_b : ℕ
  gap_strength : ℚ
  deriving DecidableEq, Repr

/-- Python `round(x, 4)` (ties modelled half-up; no claim depends on a
tie). -/
def roundQ4 (q : ℚ) : ℚ := (round (q * 10000) : Int) / 10000

/-- `itertools.combinations(l, 2)` in its enumeration order. -/
def pairsOf {α : Type} : List α → List (α × α)
  | [] => []
  | x :: t => t.map (fun y => (x, y)) ++ pairsOf t

/-- `GapDetector._pair_key`. -/
def pairKey (a b : Int) : Int × Int := (min a b, max a b)

/-- `paper_cluster`: last-write-wins map from paper id to cluster. -/
def paperClusterMap (papers : List GPaper) : List (String × Int) :=
  papers.foldl (fun m p => dset m p.id p.cluster) []

/-- `_compute_connectivity` read back at one pair key: the number of
edges whose endpoint clusters are non-noise, distinct, and whose
canonical pair equals `key` (the counter dictionary is modelled by its
lookup function; increments commute, so the count is exact). -/
def connCount (paperCluster : List (String × Int)) (edges : List GEdge)
    (key : Int × Int) : ℕ :=
  edges.countP (fun e =>
    let sc := dgetD paperCluster e.source (-1)
    let tc := dgetD paperCluster e.target (-1)
    !(sc == -1) && !(tc == -1) && !(sc == tc) && (pairKey sc tc == key))

/-- Papers of one (non-noise) cluster, `cluster_papers[cid]`. -/
def clusterSize (papers : List GPaper) (cid : Int) : ℕ :=
  (papers.filter (fun p => p.cluster == cid)).length

def validClustersOf (clusters : List GCluster) : List GCluster :=
  clusters.filter (fun c => !(c.id == -1))

/-- The gap record built for one cluster pair, `None` when either side
is empty (`if size_a == 0 or size_b == 0: continue`). -/
def mkGap (papers : List GPaper) (edges : List GEdge) (pc : List (String × Int))
    (cab : GCluster × GCluster) : Option StructuralGap :=
  let sa := clusterSize papers cab.1.id
  let sb := clusterSize papers cab.2.id
  if sa = 0 ∨ sb = 0 then none
  else
    let actual := connCount pc edges (pairKey cab.1.id cab.2.id)
    let maxPossible := sa * sb
    let strength : ℚ :=
      if 0 < maxPossible then 1 - (actual : ℚ) / (maxPossible : ℚ) else 1
    some ⟨cab.1.id, cab.2.id, sa, sb, roundQ4 strength⟩

/-- All per-pair gaps before adaptive filtering. -/
def gapsAll (papers : List GPaper) (clusters : List GCluster)
    (edges : List GEdge) : List StructuralGap :=
  (pairsOf (validClustersOf clusters)).filterMap
    (mkGap papers edges (paperClusterMap papers))

/-- `GapDetector._adaptive_threshold`. -/
def adaptiveThreshold (gaps : List StructuralGap) : ℚ :=
  if gaps = [] then 7 / 10
  else
    let strengths := (gaps.map (·.gap_strength)).insertionSort (· ≤ ·)
    let n := strengths.length
    let idx := max 0 (pyInt ((n : ℚ) * (25 / 100)) - 1)
    let p25 := strengths.getD idx.toNat 0
    min (7 / 10) (p25 + 1 / 10)

/-- `GapDetector.detect_gaps`, restricted to the list of gaps it
returns (the result's connectivity matrix and summary are final
re-serialisations of the same data and are not claim-relevant). -/
def detect_gaps (papers : List GPaper) (clusters : List GCluster)
    (edges : List GEdge) : List StructuralGap :=
  if papers = [] ∨ clusters = [] ∨ clusters.length < 2 then []
  else if (validClustersOf clusters).length < 2 then []
  else
    let gaps := gapsAll papers clusters edges
    let threshold := adaptiveThreshold gaps
    (gaps.filter (fun g => threshold ≤ g.gap_strength)).insertionSort
      (fun g1 g2 => g2.gap_strength ≤ g1.gap_strength)

/-- C3 counterexample inputs: three singleton clusters; the pair
(0,1) gets 11 duplicate edges (strength −10), the pair (0,2) gets 2
(strength −1), the pair (1,2) none (strength 1). -/
def psC3 : List GPaper := [⟨"p1", 0, none⟩, ⟨"p2", 1, none⟩, ⟨"p3", 2, none⟩]

def csC3 : List GCluster := [⟨0, "a"⟩, ⟨1, "b"⟩, ⟨2, "c"⟩]

def esC3 : List GEdge :=
  List.replicate 11 ⟨"p1", "p2"⟩ ++ List.replicate 2 ⟨"p1", "p3"⟩

/-! ## Trend analysis (`trend_analyzer.py`, claim C6) -/

structure TPaper where
  id : String
  year : Option Int
  citation_count : Int
  cluster : Int
  deriving DecidableEq, Repr

structure TCluster where
  id : Int
  label : String
  deriving DecidableEq, Repr

structure ClusterTrend where
  cluster_id : Int
  cluster_label : String
  classification : String
  paper_count : ℕ
  year_range : Int × Int
  trend_strength : ℚ
  velocity : ℚ
  representative_papers : List String
  deriving DecidableEq, Repr

structure TrendResult where
  emerging : List ClusterTrend
  stable : List ClusterTrend
  declining : List ClusterTrend
  deriving DecidableEq, Repr

/-- The paper's year under Python truthiness (`if paper.get("year")`):
`None` and `0` both count as unknown. -/
def truthyYear (p : TPaper) : Option Int :=
  match p.year with
  | none => none
  | some y => if y = 0 then none else some y

/-- Python `max(years)` over a non-empty list. -/
def listMaxD (l : List Int) : Int := l.foldl max (l.headD 0)

/-- `global_max_year`: the maximum truthy year over all input papers. -/
def globalMaxYear (papers : List TPaper) : Int :=
  listMaxD (papers.filterMap truthyYear)

/-- `year_counts`: insertion-ordered year → count dictionary. -/
def yearCounts (l : List TPaper) : List (Int × ℕ) :=
  l.foldl
    (fun m p =>
      match truthyYear p with
      | some y => dset m y (dgetD m y 0 + 1)
      | none => m)
    []

/-- `_get_representative_papers`: top 3 ids by citation count. -/
def representativePapers (cp : List TPaper) : List String :=
  ((cp.insertionSort (fun p q => q.citation_count ≤ p.citation_count)).take 3).map (·.id)

/-- `TrendAnalyzer._classify`, in the code's exact priority order. -/
def classify (first_seen last_seen : Int) (paper_count : ℕ)
    (year_span global_max_year : Int) : String :=
  if global_max_year - 2 ≤ first_seen ∧ 2 ≤ paper_count then "emerging"
  else if last_seen ≤ global_max_year - 3 then "declining"
  else if 3 ≤ paper_count ∧ (3 : Int) ≤ year_span then "stable"
  else "stable"

/-- `TrendAnalyzer._analyze_cluster`. -/
def analyzeCluster (cid : Int) (label : String) (cp : List TPaper)
    (gmax : Int) : ClusterTrend :=
  let yc := yearCounts cp
  if yc = [] then
    ⟨cid, label, "stable", cp.length, (0, 0), 0, 0, representativePapers cp⟩
  else
    let sortedYears := (yc.map (·.1)).insertionSort (· ≤ ·)
    let first := sortedYears.getD 0 0
    let last := sortedYears.getD (sortedYears.length - 1) 0
    let span := last - first + 1
    let total : ℕ := (yc.map (·.2)).sum
    let recent : ℕ := ((yc.filter (fun kv => decide (gmax - 1 ≤ kv.1))).map (·.2)).sum
    let olds : ℕ := ((yc.filter (fun kv => decide (kv.1 ≤ first + 1))).map (·.2)).sum
    let ts : ℚ := if 0 < total then (recent : ℚ) / (total : ℚ) else 0
    let vel : ℚ := ((recent : ℚ) - (olds : ℚ)) / ((max span 1 : Int) : ℚ)
    ⟨cid, label, classify first last total span gmax, total, (first, last),
      roundQ4 ts, roundQ4 vel, representativePapers cp⟩

def labelMap (clusters : List TCluster) : List (Int × String) :=
  clusters.foldl (fun m c => dset m c.id c.label) []

def labelOf (clusters : List TCluster) (cid : Int) : String :=
  dgetD (labelMap clusters) cid ("Cluster " ++ toString cid)

/-- One iteration of the per-cluster loop of `analyze_trends`. -/
def trendStep (papers : List TPaper) (clusters : List TCluster) (gmax : Int)
    (r : TrendResult) (c : TCluster) : TrendResult :=
  if c.id = -1 then r
  else
    let cp := papers.filter (fun p => p.cluster == c.id)
    if cp = [] then r
    else
      let tr := analyzeCluster c.id (labelOf clusters c.id) cp gmax
      if tr.classification = "emerging" then ⟨r.emerging ++ [tr], r.stable, r.declining⟩
      else if tr.classification = "stable" then ⟨r.emerging, r.stable ++ [tr], r.declining⟩
      else ⟨r.emerging, r.stable, r.declining ++ [tr]⟩

/-- `TrendAnalyzer.analyze_trends` (the numeric summary dictionary is
a re-serialisation of the three lists and is omitted). -/
def analyze_trends (papers : List TPaper) (clusters : List TCluster) : TrendResult :=
  if papers = [] ∨ clusters = [] then ⟨[], [], []⟩
  else if papers.filterMap truthyYear = [] then ⟨[], [], []⟩
  else
    let gmax := globalMaxYear papers
    let r := clusters.foldl (trendStep papers clusters gmax) ⟨[], [], []⟩
    ⟨r.emerging.insertionSort (fun a b => b.trend_strength ≤ a.trend_strength),
     r.stable.insertionSort (fun a b => b.paper_count ≤ a.paper_count),
     r.declining.insertionSort (fun a b => a.velocity ≤ b.velocity)⟩

/-! ### C5: background citation enrichment (routers/search.py, _enrich_citations_background)

The network fetch `s2_client.get_references` is modelled as an explicit
function `fetch : String → Except Unit (List Ref)`; a `.error` value
stands for the exception caught by the per-paper `except` clause.
A missing key in `s2_to_node_id` raises `KeyError` inside the same
per-paper `try`, so `dget? = none` is routed to the same failure path;
a `KeyError` on a reference target aborts that paper's inner loop but
keeps the edges already appended, which `refsFold` reproduces.
The DB write is modelled by its boolean guard
`db.is_connected and citation_edges_added > 0`. -/

structure GraphEdge where
  source : String
  target : String
  etype : String
  weight : ℚ
  intent : String
deriving Repr, DecidableEq

structure SNode where
  s2_paper_id : String
  citation_count : Int
deriving Repr, DecidableEq

structure Ref where
  paper_id : String
deriving Repr, DecidableEq

structure EnrichState where
  edges : List GraphEdge
  keys : List (String × String)
  added : Nat
  failed : Nat
deriving Repr, DecidableEq

def keysOf (edges : List GraphEdge) : List (String × String) :=
  edges.map (fun e => (e.source, e.target))

def batchIds (nodes : List SNode) : List String :=
  let nodes_with_s2 :=
    (nodes.filter (fun n => truthyStr n.s2_paper_id)).map
      (fun n => (n, n.citation_count))
  let sorted := nodes_with_s2.insertionSort (fun a b => b.2 ≤ a.2)
  (sorted.take 20).map (fun x => x.1.s2_paper_id)

def refStep (src : String) (s2set : List String)
    (s2map : List (String × String)) (st : EnrichState) (r : Ref) :
    Except Unit EnrichState :=
  if r.paper_id ∈ s2set then
    match dget? s2map r.paper_id with
    | none => .error ()
    | some tgt =>
      let ek := (src, tgt)
      let rk := (tgt, src)
      if ek ∈ st.keys ∨ rk ∈ st.keys then .ok st
      else .ok { st with
        edges := st.edges ++ [⟨src, tgt, "citation", 8/10, "background"⟩],
        keys := st.keys ++ [ek],
        added := st.added + 1 }
  else .ok st

def refsFold (src : String) (s2set : List String)
    (s2map : List (String × String)) :
    EnrichState → List Ref → EnrichState × Bool
  | st, [] => (st, false)
  | st, r :: rs =>
    match refStep src s2set s2map st r with
    | .error _ => (st, true)
    | .ok st' => refsFold src s2set s2map st' rs

def paperStep (fetch : String → Except Unit (List Ref))
    (s2set : List String) (s2map : List (String × String))
    (st : EnrichState) (sid : String) : EnrichState :=
  match fetch sid with
  | .error _ => { st with failed := st.failed + 1 }
  | .ok refs =>
    match dget? s2map sid with
    | none => { st with failed := st.failed + 1 }
    | some src =>
      match refsFold src s2set s2map st refs with
      | (st', true) => { st' with failed := st'.failed + 1 }
      | (st', false) => st'

def enrichRun (fetch : String → Except Unit (List Ref))
    (nodes : List SNode) (s2_paper_ids : List String)
    (s2map : List (String × String)) (edges0 : List GraphEdge) :
    EnrichState :=
  let st0 : EnrichState := ⟨edges0, keysOf edges0, 0, 0⟩
  (batchIds nodes).foldl (paperStep fetch s2_paper_ids s2map) st0

def enrichWrite (dbConnected : Bool)
    (fetch : String → Except Unit (List Ref))
    (nodes : List SNode) (s2_paper_ids : List String)
    (s2map : List (String × String)) (edges0 : List GraphEdge) : Bool :=
  dbConnected && decide (0 < (enrichRun fetch nodes s2_paper_ids s2map edges0).added)

def fetchC5 : String → Except Unit (List Ref) :=
  fun sid => if sid = "s-bad" then .error () else .ok [⟨"s-a"⟩]

/-! ### C4/C9: cosine similarity edges (graph/similarity.py, compute_edges)

Embeddings are lists of reals; `np.linalg.norm` is the square root of
the sum of squares; the row normalization replaces zero norms by 1
(`np.where(norms == 0, 1, norms)`); `np.argsort` ascending is modelled
by a stable insertion sort on indices by similarity value. -/

noncomputable def npNorm (v : List ℝ) : ℝ :=
  Real.sqrt ((v.map (fun a => a ^ 2)).sum)

def dotR (a b : List ℝ) : ℝ :=
  ((a.zip b).map (fun p => p.1 * p.2)).sum

noncomputable def normRow (r : List ℝ) : List ℝ :=
  let nrm := npNorm r
  let nrm := if nrm = 0 then 1 else nrm
  r.map (fun a => a / nrm)

structure SimEdge where
  source : String
  target : String
  similarity : ℝ
  etype : String

def edgeStep (paper_ids : List String) (sims : List ℝ) (mepn : ℕ) (i : ℕ)
    (st : List SimEdge × List (String × ℕ)) (j : ℕ) :
    List SimEdge × List (String × ℕ) :=
  if i < j then
    let src := paper_ids.getD i ""
    let tgt := paper_ids.getD j ""
    if mepn ≤ dgetD st.2 src 0 then st
    else if mepn ≤ dgetD st.2 tgt 0 then st
    else
      let d1 := dset st.2 src (dgetD st.2 src 0 + 1)
      let d2 := dset d1 tgt (dgetD d1 tgt 0 + 1)
      (st.1 ++ [⟨src, tgt, sims.getD j 0, "similarity"⟩], d2)
  else st

noncomputable def rowStep (paper_ids : List String) (M : List (List ℝ))
    (threshold : ℝ) (mepn : ℕ)
    (st : List SimEdge × List (String × ℕ)) (i : ℕ) :
    List SimEdge × List (String × ℕ) :=
  let sims := (M.getD i []).set i (-1)
  let above := (List.range sims.length).filter (fun j => threshold ≤ sims.getD j 0)
  if above.isEmpty then st
  else
    let sorted := (above.insertionSort (fun a b => sims.getD a 0 ≤ sims.getD b 0)).reverse
    let top := sorted.take mepn
    top.foldl (edgeStep paper_ids sims mepn i) st

noncomputable def compute_edges (embeddings : List (List ℝ)) (paper_ids : List String)
    (threshold : ℝ) (max_edges_per_node : ℕ) : List SimEdge :=
  if embeddings.length < 2 then []
  else
    let normalized := embeddings.map normRow
    let similarity_matrix := normalized.map (fun r => normalized.map (fun c => dotR r c))
    ((List.range similarity_matrix.length).foldl
      (rowStep paper_ids similarity_matrix threshold max_edges_per_node) ([], [])).1

/-! ### C10: incremental layout (graph/incremental_layout.py, place_new_paper)

The three `rng.normal(0, jitter_scale)` draws are modelled as explicit
parameters `jx jy jz`, added only on the main path exactly as in the
source; the early returns never reach them. -/

structure LNode where
  embedding : Option (List ℝ)
  x : Option ℝ
  y : ℝ
  z : ℝ

noncomputable def place_new_paper (new_embedding : List ℝ)
    (existing_nodes : List LNode) (k : ℕ) (jx jy jz : ℝ) : ℝ × ℝ × ℝ :=
  if existing_nodes.isEmpty then (0, 0, 0)
  else
    let valid_nodes := existing_nodes.filter (fun n => n.embedding.isSome && n.x.isSome)
    if valid_nodes.isEmpty then (0, 0, 0)
    else
      let new_norm := npNorm new_embedding
      if new_norm = 0 then (0, 0, 0)
      else
        let new_normalized := new_embedding.map (fun a => a / new_norm)
        let sims := valid_nodes.map
          (fun n => dotR (normRow (n.embedding.getD [])) new_normalized)
        let actual_k := min k valid_nodes.length
        let idx_sorted := (List.range valid_nodes.length).insertionSort
          (fun a b => sims.getD a 0 ≤ sims.getD b 0)
        let top_k_idx := (idx_sorted.drop (idx_sorted.length - actual_k)).reverse
        let w0 := top_k_idx.map (fun i => max (sims.getD i 0) 0)
        let wsum := w0.sum
        let w1 := if wsum = 0 then List.replicate actual_k (1 : ℝ) else w0
        let wsum1 := if wsum = 0 then (actual_k : ℝ) else wsum
        let weights := w1.map (fun a => a / wsum1)
        let x := ((top_k_idx.zip weights).map
          (fun p => (valid_nodes.getD p.1 ⟨none, none, 0, 0⟩).x.getD 0 * p.2)).sum
        let y := ((top_k_idx.zip weights).map
          (fun p => (valid_nodes.getD p.1 ⟨none, none, 0, 0⟩).y * p.2)).sum
        let z := ((top_k_idx.zip weights).map
          (fun p => (valid_nodes.getD p.1 ⟨none, none, 0, 0⟩).z * p.2)).sum
        (x + jx, y + jy, z + jz)

def countE (es : List SimEdge) (s : String) : ℕ :=
  (es.filter (fun e => e.source == s || e.target == s)).length

def simInv (mepn : ℕ) (st : List SimEdge × List (String × ℕ)) : Prop :=
  ∀ s : String, countE st.1 s ≤ dgetD st.2 s 0 ∧ countE st.1 s ≤ mepn

@[simp] theorem dget?_nil {κ ν : Type} [BEq κ] (a : κ) :
    dget? ([] : List (κ × ν)) a = none := rfl

theorem dget?_cons {κ ν : Type} [BEq κ] (x : κ × ν) (t : List (κ × ν)) (a : κ) :
    dget? (x :: t) a = if x.1 == a then some x.2 else dget? t a := by
  simp only [dget?, List.find?]
  cases h : x.1 == a <;> simp [h]

/-- A `dget?` hit comes from an entry of the dictionary. -/
theorem dget?_mem {κ ν : Type} [BEq κ] [LawfulBEq κ] {m : List (κ × ν)} {a : κ} {b : ν}
    (h : dget? m a = some b) : (a, b) ∈ m := by
  induction m with
  | nil => simp [dget?] at h
  | cons x t ih =>
      rw [dget?_cons] at h
      by_cases hx : x.1 == a
      · simp only [hx, if_true] at h
        obtain rfl : x.2 = b := by simpa using h
        have hxa : x.1 = a := by simpa using hx
        have hx' : (a, x.2) = x := by
          cases x; simp_all
        rw [hx']
        exact List.mem_cons_self x t
      · simp only [hx] at h
        exact List.mem_cons_of_mem _ (ih h)

/-- If no entry has key `a`, `dget?` misses. -/
theorem dget?_eq_none {κ ν : Type} [BEq κ] [LawfulBEq κ] {m : List (κ × ν)} {a : κ}
    (h : ∀ p ∈ m, p.1 ≠ a) : dget? m a = none := by
  induction m with
  | nil => rfl
  | cons x t ih =>
      rw [dget?_cons]
      have hx : ¬ (x.1 == a) := by
        simpa using h x (List.mem_cons_self x t)
      simp only [hx, if_false]
      exact ih (fun p hp => h p (List.mem_cons_of_mem _ hp))

/-- Every entry of `dset m a b` is an old entry or the new pair. -/
theorem mem_dset {κ ν : Type} [BEq κ] {m : List (κ × ν)} {a : κ} {b : ν} :
    ∀ p ∈ dset m a b, p ∈ m ∨ p = (a, b) := by
  induction m with
  | nil => intro p hp; simp [dset] at hp; right; exact hp
  | cons x t ih =>
      intro p hp
      simp only [dset] at hp
      by_cases hx : (x.1 == a) = true
      · rw [if_pos hx] at hp
        rcases List.mem_cons.mp hp with h1 | h1
        · right; exact h1
        · left; exact List.mem_cons_of_mem _ h1
      · rw [if_neg hx] at hp
        rcases List.mem_cons.mp hp with h1 | h1
        · left; exact h1 ▸ List.mem_cons_self x t
        · rcases ih p h1 with h2 | h2
          · left; exact List.mem_cons_of_mem _ h2
          · right; exact h2

/-- Entries surviving `dpop` are entries of the original dictionary. -/
theorem mem_dpop {κ ν : Type} [BEq κ] {m : List (κ × ν)} {a : κ} :
    ∀ p ∈ dpop m a, p ∈ m := by
  intro p hp
  exact List.mem_of_mem_filter hp

theorem normTitle_empty : normTitle "" = "" := by decide

theorem tnd_append (l₁ l₂ : List UnifiedPaper) : tnd (l₁ ++ l₂) = tnd l₁ ++ tnd l₂ := by
  simp [tnd, List.filter_append]

theorem mem_tnd {r : UnifiedPaper} {l : List UnifiedPaper} (h : r ∈ l)
    (h1 : truthy r.doi = false) (h2 : normTitle r.title ≠ "") :
    normTitle r.title ∈ tnd l := by
  apply List.mem_map_of_mem
  rw [List.mem_filter]
  refine ⟨h, ?_⟩
  simp [h1, h2]

@[simp] theorem enrich_doi (u : UnifiedPaper) (m : Option S2Paper) :
    (enrich u m).doi = u.doi := by
  cases m with
  | none => rfl
  | some p => simp only [enrich]; split <;> rfl

@[simp] theorem enrich_title (u : UnifiedPaper) (m : Option S2Paper) :
    (enrich u m).title = u.title := by
  cases m with
  | none => rfl
  | some p => simp only [enrich]; split <;> rfl

@[simp] theorem abstractFallback_doi (u : UnifiedPaper) :
    (abstractFallback u).doi = u.doi := by
  simp only [abstractFallback]; split <;> rfl

@[simp] theorem abstractFallback_title (u : UnifiedPaper) :
    (abstractFallback u).title = u.title := by
  simp only [abstractFallback]; split <;> rfl

theorem doiKeyed_dpop {m : List (String × S2Paper)} (h : DoiKeyed m) (a : String) :
    DoiKeyed (dpop m a) := fun p hp => h p (mem_dpop p hp)

theorem titleKeyed_dpop {m : List (String × S2Paper)} (h : TitleKeyed m) (a : String) :
    TitleKeyed (dpop m a) := fun p hp => h p (mem_dpop p hp)

theorem doiKeyed_build (s2 : List S2Paper) : DoiKeyed (buildS2ByDoi s2) := by
  suffices H : ∀ (l : List S2Paper) (m : List (String × S2Paper)), DoiKeyed m →
      DoiKeyed (l.foldl
        (fun m p =>
          match normalizeDoi p.doi with
          | some d => if d ≠ "" then dset m d p else m
          | none => m) m) by
    exact H s2 [] (by intro p hp; cases hp)
  intro l
  induction l with
  | nil => intro m hm; simpa using hm
  | cons p t ih =>
      intro m hm
      simp only [List.foldl_cons]
      apply ih
      cases hnd : normalizeDoi p.doi with
      | none => simpa using hm
      | some d =>
          by_cases hd : d = ""
          · simp only [hd]; simpa using hm
          · simp only [ne_eq, hd, not_false_iff, if_true]
            intro q hq
            rcases mem_dset q hq with h' | h'
            · exact hm q h'
            · subst h'; exact ⟨hnd, hd⟩

theorem titleKeyed_build (s2 : List S2Paper) : TitleKeyed (buildS2ByTitle s2) := by
  suffices H : ∀ (l : List S2Paper) (m : List (String × S2Paper)), TitleKeyed m →
      TitleKeyed (l.foldl
        (fun m p => if p.title ≠ "" then dset m (normTitle p.title) p else m) m) by
    exact H s2 [] (by intro p hp; cases hp)
  intro l
  induction l with
  | nil => intro m hm; simpa using hm
  | cons p t ih =>
      intro m hm
      simp only [List.foldl_cons]
      apply ih
      by_cases ht : p.title = ""
      · simp only [ht]; simpa using hm
      · simp only [ne_eq, ht, not_false_iff, if_true]
        intro q hq
        rcases mem_dset q hq with h' | h'
        · exact hm q h'
        · subst h'; exact ⟨ht, rfl⟩

theorem findS2Match_keyed {doi : Option String} {title : String}
    {s2d s2t : List (String × S2Paper)} (hd : DoiKeyed s2d) (ht : TitleKeyed s2t) :
    DoiKeyed (findS2Match doi title s2d s2t).2.1 ∧
      TitleKeyed (findS2Match doi title s2d s2t).2.2 := by
  unfold findS2Match
  split
  · exact ⟨doiKeyed_dpop hd _, ht⟩
  · split
    · split
      · exact ⟨hd, titleKeyed_dpop ht _⟩
      · exact ⟨hd, ht⟩
    · exact ⟨hd, ht⟩

@[simp] theorem phase1U_doi (rrf) (s2d s2t) (w : OAWork) :
    (phase1U rrf s2d s2t w).doi = normalizeDoi w.doi := by
  simp [phase1U, oaWorkToUnified]

@[simp] theorem phase1U_title (rrf) (s2d s2t) (w : OAWork) :
    (phase1U rrf s2d s2t w).title = w.title := by
  simp [phase1U, oaWorkToUnified]

@[simp] theorem s2Unified_doi (rrf) (doi : Option String) (p : S2Paper) :
    (s2Unified rrf doi p).doi = normalizeDoi p.doi := by
  simp [s2Unified, s2PaperToUnified]

@[simp] theorem s2Unified_title (rrf) (doi : Option String) (p : S2Paper) :
    (s2Unified rrf doi p).title = p.title := by
  simp [s2Unified, s2PaperToUnified]

theorem phase1_inv (rrf : Option String → String → ℚ) :
    ∀ (ws : List OAWork) (st : FusionState) (s2d s2t : List (String × S2Paper)),
      Inv st → DoiKeyed s2d → TitleKeyed s2t →
      ws.Pairwise OADoiDistinct → ws.Pairwise OATitleDistinct →
      (∀ w ∈ ws, ∀ d : String, normalizeDoi w.doi = some d → d ≠ "" → d ∉ st.seenD) →
      (∀ w ∈ ws, truthy (normalizeDoi w.doi) = false → normTitle w.title ≠ "" →
        normTitle w.title ∉ tnd st.merged) →
      Inv (ws.foldl (phase1Step rrf) (st, s2d, s2t)).1 ∧
        DoiKeyed (ws.foldl (phase1Step rrf) (st, s2d, s2t)).2.1 ∧
        TitleKeyed (ws.foldl (phase1Step rrf) (st, s2d, s2t)).2.2 := by
  intro ws
  induction ws with
  | nil =>
      intro st s2d s2t hInv hD hT _ _ _ _
      exact ⟨hInv, hD, hT⟩
  | cons w t ih =>
      intro st s2d s2t hInv hD hT hPD hPT hA1 hA2
      obtain ⟨hInv1, hInv2, hInv3⟩ := hInv
      simp only [List.foldl_cons]
      set u := phase1U rrf s2d s2t w with hu
      have hudoi : u.doi = normalizeDoi w.doi := by simp [hu]
      have hutitle : u.title = w.title := by simp [hu]
      -- the new state after processing `w`
      have hstep : phase1Step rrf (st, s2d, s2t) w =
          (⟨st.merged ++ [u],
            if truthy (normalizeDoi w.doi) then (normalizeDoi w.doi).getD "" :: st.seenD
            else st.seenD,
            if w.title ≠ "" then normTitle w.title :: st.seenT else st.seenT⟩,
           (findS2Match (normalizeDoi w.doi) w.title s2d s2t).2.1,
           (findS2Match (normalizeDoi w.doi) w.title s2d s2t).2.2) := rfl
      rw [hstep]
      have hKeyed := @findS2Match_keyed (normalizeDoi w.doi) w.title _ _ hD hT
      apply ih
      -- Inv of the new state
      · refine ⟨?_, ?_, ?_⟩
        · -- Pairwise
          rw [List.pairwise_append]
          refine ⟨hInv1, List.pairwise_singleton _ _, ?_⟩
          intro r hr u' hu'
          rw [List.mem_singleton] at hu'
          subst hu'
          constructor
          · -- DOI clause: r's truthy DOI is in seenD, u's is not.
            intro d hrd hdne hud
            rw [hudoi] at hud
            exact hA1 w (List.mem_cons_self w t) d hud hdne (hInv2 r hr d hrd hdne)
          · -- title clause
            intro hrf huf hrt
            rw [hudoi] at huf
            rw [hutitle]
            by_cases hwt : normTitle w.title = ""
            · rw [hwt]; exact fun h => hrt h
            · have := hA2 w (List.mem_cons_self w t) huf hwt
              intro heq
              exact this (heq ▸ mem_tnd hr hrf hrt)
        · -- truthy DOIs of merged ∪ {u} are in the new seenD
          dsimp only
          intro r hr d hrd hdne
          rcases List.mem_append.mp hr with hr | hr
          · have := hInv2 r hr d hrd hdne
            split
            · exact List.mem_cons_of_mem _ this
            · exact this
          · rw [List.mem_singleton] at hr
            subst hr
            rw [hudoi] at hrd
            have htr : truthy (normalizeDoi w.doi) = true := by
              rw [hrd]; simpa [truthy] using hdne
            rw [if_pos htr, hrd]
            exact List.mem_cons_self _ _
        · -- DOI-less titles of merged ∪ {u} are in the new seenT
          dsimp only
          intro r hr hrf hrt
          rcases List.mem_append.mp hr with hr | hr
          · have := hInv3 r hr hrf hrt
            split
            · exact List.mem_cons_of_mem _ this
            · exact this
          · rw [List.mem_singleton] at hr
            subst hr
            rw [hutitle] at hrt ⊢
            have hwt : w.title ≠ "" := by
              intro h; exact hrt (by rw [h, normTitle_empty])
            rw [if_pos hwt]
            exact List.mem_cons_self _ _
      · exact hKeyed.1
      · exact hKeyed.2
      · exact (List.pairwise_cons.mp hPD).2
      · exact (List.pairwise_cons.mp hPT).2
      · -- A1 for the tail: new truthy DOIs still unseen
        intro w' hw' d hw'd hdne
        have hold := hA1 w' (List.mem_cons_of_mem _ hw') d hw'd hdne
        split
        · rename_i htr
          intro hmem
          rcases List.mem_cons.mp hmem with h | h
          · -- d is w's DOI: contradicts pairwise DOI distinctness
            obtain ⟨d0, hd0⟩ : ∃ d0, normalizeDoi w.doi = some d0 := by
              cases hnd : normalizeDoi w.doi with
              | none => rw [hnd] at htr; simp [truthy] at htr
              | some d0 => exact ⟨d0, rfl⟩
            have hd0ne : d0 ≠ "" := by
              rw [hd0] at htr; simpa [truthy] using htr
            have := (List.pairwise_cons.mp hPD).1 w' hw' d0 hd0 hd0ne
            rw [hd0] at h
            simp only [Option.getD_some] at h
            exact this (h ▸ hw'd)
          · exact hold h
        · exact hold
      · -- A2 for the tail: new DOI-less titles still not in tnd
        intro w' hw' hw'f hw't
        have hold := hA2 w' (List.mem_cons_of_mem _ hw') hw'f hw't
        rw [tnd_append]
        intro hmem
        rcases List.mem_append.mp hmem with h | h
        · exact hold h
        · -- the title is in tnd [u]: u must qualify and share the title
          simp only [tnd, List.mem_map, List.mem_filter] at h
          obtain ⟨r, ⟨hrmem, hrq⟩, hrt⟩ := h
          rw [List.mem_singleton] at hrmem
          subst hrmem
          rw [Bool.and_eq_true, Bool.not_eq_true'] at hrq
          obtain ⟨huf, hut⟩ := hrq
          rw [hudoi] at huf
          have hwt : normTitle w.title ≠ "" := by
            rw [hutitle] at hut
            simpa using hut
          have := (List.pairwise_cons.mp hPT).1 w' hw' huf hw'f hwt
          rw [hutitle] at hrt
          exact this hrt

theorem phase2_inv (rrf : Option String → String → ℚ) :
    ∀ (es : List (String × S2Paper)) (st : FusionState),
      Inv st → DoiKeyed es → Inv (es.foldl (phase2Step rrf) st) := by
  intro es
  induction es with
  | nil => intro st hInv _; exact hInv
  | cons e t ih =>
      intro st hInv hK
      simp only [List.foldl_cons]
      apply ih _ _ (fun p hp => hK p (List.mem_cons_of_mem _ hp))
      obtain ⟨hInv1, hInv2, hInv3⟩ := hInv
      obtain ⟨hkey, hkne⟩ := hK e (List.mem_cons_self e t)
      unfold phase2Step
      split
      · exact ⟨hInv1, hInv2, hInv3⟩
      · rename_i hdnew
        dsimp only
        by_cases he : e.2.title = ""
        · rw [if_neg (by simp [he])]
          exact ⟨hInv1, hInv2, hInv3⟩
        · rw [show (if e.2.title ≠ "" then normTitle e.2.title else "") = normTitle e.2.title
            from by simp [he]]
          split
          swap
          · exact ⟨hInv1, hInv2, hInv3⟩
          rename_i htk
          obtain ⟨htkne, htknotseen⟩ := htk
          set u := s2Unified rrf (some e.1) e.2 with hu
          have hudoi : u.doi = some e.1 := by rw [hu, s2Unified_doi, hkey]
          refine ⟨?_, ?_, ?_⟩
          · rw [List.pairwise_append]
            refine ⟨hInv1, List.pairwise_singleton _ _, ?_⟩
            intro r hr u' hu'
            rw [List.mem_singleton] at hu'
            subst hu'
            constructor
            · intro d hrd hdne hud
              rw [hudoi] at hud
              have hd1 : e.1 = d := by simpa using hud
              have hmem := hInv2 r hr d hrd hdne
              rw [← hd1] at hmem
              exact hdnew hmem
            · intro _ huf
              rw [hudoi] at huf
              simp [truthy, hkne] at huf
          · dsimp only
            intro r hr d hrd hdne
            rcases List.mem_append.mp hr with hr | hr
            · exact List.mem_cons_of_mem _ (hInv2 r hr d hrd hdne)
            · rw [List.mem_singleton] at hr
              subst hr
              rw [hudoi] at hrd
              obtain rfl : e.1 = d := by simpa using hrd
              exact List.mem_cons_self _ _
          · dsimp only
            intro r hr hrf hrt
            rcases List.mem_append.mp hr with hr | hr
            · exact List.mem_cons_of_mem _ (hInv3 r hr hrf hrt)
            · rw [List.mem_singleton] at hr
              subst hr
              rw [hudoi] at hrf
              simp [truthy, hkne] at hrf

theorem phase3_inv (rrf : Option String → String → ℚ) :
    ∀ (es : List (String × S2Paper)) (st : FusionState),
      Inv st → TitleKeyed es → Inv (es.foldl (phase3Step rrf) st) := by
  intro es
  induction es with
  | nil => intro st hInv _; exact hInv
  | cons e t ih =>
      intro st hInv hK
      simp only [List.foldl_cons]
      apply ih _ _ (fun p hp => hK p (List.mem_cons_of_mem _ hp))
      obtain ⟨hInv1, hInv2, hInv3⟩ := hInv
      obtain ⟨htne, hkey⟩ := hK e (List.mem_cons_self e t)
      unfold phase3Step
      split
      · exact ⟨hInv1, hInv2, hInv3⟩
      · rename_i htnew
        dsimp only
        split
        · exact ⟨hInv1, hInv2, hInv3⟩
        · rename_i hguard
          rw [Bool.and_eq_true, not_and] at hguard
          set u := s2Unified rrf (normalizeDoi e.2.doi) e.2 with hu
          have hudoi : u.doi = normalizeDoi e.2.doi := by rw [hu, s2Unified_doi]
          have hutitle : u.title = e.2.title := by rw [hu, s2Unified_title]
          refine ⟨?_, ?_, ?_⟩
          · rw [List.pairwise_append]
            refine ⟨hInv1, List.pairwise_singleton _ _, ?_⟩
            intro r hr u' hu'
            rw [List.mem_singleton] at hu'
            subst hu'
            constructor
            · intro d hrd hdne hud
              rw [hudoi] at hud
              have htr : truthy (normalizeDoi e.2.doi) = true := by
                rw [hud]; simpa [truthy] using hdne
              have := hguard htr
              rw [decide_eq_true_eq] at this
              apply this
              rw [hud]
              simpa using hInv2 r hr d hrd hdne
            · intro hrf _ hrt heq
              apply htnew
              rw [← hkey, ← hutitle, ← heq]
              exact hInv3 r hr hrf hrt
          · dsimp only
            intro r hr d hrd hdne
            rcases List.mem_append.mp hr with hr | hr
            · have := hInv2 r hr d hrd hdne
              split
              · exact List.mem_cons_of_mem _ this
              · exact this
            · rw [List.mem_singleton] at hr
              subst hr
              rw [hudoi] at hrd
              have htr : truthy (normalizeDoi e.2.doi) = true := by
                rw [hrd]; simpa [truthy] using hdne
              rw [if_pos htr, hrd]
              exact List.mem_cons_self _ _
          · dsimp only
            intro r hr hrf hrt
            rcases List.mem_append.mp hr with hr | hr
            · exact List.mem_cons_of_mem _ (hInv3 r hr hrf hrt)
            · rw [List.mem_singleton] at hr
              subst hr
              rw [hutitle, hkey]
              exact List.mem_cons_self _ _

/-- C1, amended.  If the OpenAlex input list itself contains no two
works sharing a truthy normalised DOI and no two DOI-less works
sharing a non-empty normalised title, then the fused output contains
no two records sharing a truthy normalised DOI, and no two records
that both lack a truthy DOI and share a non-empty normalised title. -/
theorem mergeResults_dedup (oa : List OAWork) (s2 : List S2Paper)
    (h1 : oa.Pairwise OADoiDistinct) (h2 : oa.Pairwise OATitleDistinct) :
    (mergeResults oa s2).Pairwise DedupOK := by
  unfold mergeResults
  have hinit : Inv ⟨[], [], []⟩ := by
    refine ⟨List.Pairwise.nil, ?_, ?_⟩ <;> intro r hr <;> cases hr
  have h1' := phase1_inv
    (computeRRF (oa.map (·.doi)) (oa.map (·.title)) (s2.map (·.doi)) (s2.map (·.title)))
    oa ⟨[], [], []⟩ (buildS2ByDoi s2) (buildS2ByTitle s2)
    hinit (doiKeyed_build s2) (titleKeyed_build s2) h1 h2
    (by intro w _ d _ _ h; cases h) (by intro w _ _ _ h; simp [tnd] at h)
  have h2' := phase2_inv
    (computeRRF (oa.map (·.doi)) (oa.map (·.title)) (s2.map (·.doi)) (s2.map (·.title)))
    _ _ h1'.1 h1'.2.1
  have h3' := phase3_inv
    (computeRRF (oa.map (·.doi)) (oa.map (·.title)) (s2.map (·.doi)) (s2.map (·.title)))
    _ _ h2' h1'.2.2
  exact h3'.1

/-- Witness for the amended C1 at a concrete input: one OA work and
one S2-only paper with distinct DOIs fuse into a deduplicated list. -/
theorem mergeResults_dedup_witness :
    (mergeResults [⟨"W1", some "10.1/a", "Paper A", none, none, 0⟩]
        [⟨"s2b", some "10.2/b", "Paper B", none, none, none, none⟩]).Pairwise DedupOK := by
  apply mergeResults_dedup
  · exact List.pairwise_singleton _ _
  · exact List.pairwise_singleton _ _

/-- Counterexample to C1 as stated: when the OpenAlex list itself
contains two works with the same DOI, both survive fusion — the
output contains two records with equal, non-null normalised DOIs. -/
theorem mergeResults_dup_doi_counterexample :
    (mergeResults
        [⟨"W1", some "10.1/x", "Paper A", none, none, 0⟩,
         ⟨"W2", some "10.1/x", "Paper B", none, none, 0⟩] []).map
      (fun r => r.doi) = [some "10.1/x", some "10.1/x"] := by
  decide

/-! ## Rank-map lemmas and the RRF claims (C7, C8) -/

theorem dget?_dset_self {κ ν : Type} [BEq κ] [LawfulBEq κ] (m : List (κ × ν)) (a : κ) (b : ν) :
    dget? (dset m a b) a = some b := by
  induction m with
  | nil => simp [dset, dget?_cons]
  | cons x t ih =>
      simp only [dset]
      by_cases hx : (x.1 == a) = true
      · rw [if_pos hx, dget?_cons]
        simp
      · rw [if_neg hx, dget?_cons, if_neg hx]
        exact ih

theorem dget?_dset_ne {κ ν : Type} [BEq κ] [LawfulBEq κ] (m : List (κ × ν)) {a c : κ} (b : ν)
    (h : a ≠ c) : dget? (dset m a b) c = dget? m c := by
  induction m with
  | nil =>
      simp only [dset, dget?_cons, dget?_nil]
      rw [if_neg (by simpa using h)]
  | cons x t ih =>
      simp only [dset]
      by_cases hx : (x.1 == a) = true
      · rw [if_pos hx, dget?_cons, dget?_cons]
        rw [if_neg (by simpa using h)]
        have : x.1 = a := by simpa using hx
        rw [this, if_neg (by simpa using h)]
      · rw [if_neg hx, dget?_cons, dget?_cons]
        by_cases hc : (x.1 == c) = true
        · rw [if_pos hc, if_pos hc]
        · rw [if_neg hc, if_neg hc]
          exact ih

theorem rankMapAux_mem {α : Type} (key : α → Option String) :
    ∀ (l : List α) (i : ℕ) (m : List (String × ℕ)),
      ∀ p ∈ rankMapAux key i l m, p.1 ∈ m.map Prod.fst ∨ ∃ x ∈ l, key x = some p.1 := by
  intro l
  induction l with
  | nil =>
      intro i m p hp
      left
      exact List.mem_map_of_mem _ hp
  | cons x t ih =>
      intro i m p hp
      simp only [rankMapAux] at hp
      cases hk : key x with
      | none =>
          rw [hk] at hp
          rcases ih (i + 1) m p hp with h | h
          · left; exact h
          · right; obtain ⟨y, hy, hky⟩ := h
            exact ⟨y, List.mem_cons_of_mem _ hy, hky⟩
      | some d =>
          rw [hk] at hp
          rcases ih (i + 1) (dset m d i) p hp with h | h
          · rw [List.mem_map] at h
            obtain ⟨q, hq, hq1⟩ := h
            rcases mem_dset q hq with h' | h'
            · left; exact hq1 ▸ List.mem_map_of_mem _ h'
            · right
              refine ⟨x, List.mem_cons_self x t, ?_⟩
              rw [hk, ← hq1, h']
          · right; obtain ⟨y, hy, hky⟩ := h
            exact ⟨y, List.mem_cons_of_mem _ hy, hky⟩

theorem rankMapAux_untouched {α : Type} (key : α → Option String) :
    ∀ (l : List α) (i : ℕ) (m : List (String × ℕ)) (d : String),
      (∀ x ∈ l, key x ≠ some d) →
      dget? (rankMapAux key i l m) d = dget? m d := by
  intro l
  induction l with
  | nil => intro i m d _; rfl
  | cons x t ih =>
      intro i m d h
      simp only [rankMapAux]
      cases hk : key x with
      | none => exact ih (i + 1) m d (fun y hy => h y (List.mem_cons_of_mem _ hy))
      | some d' =>
          rw [ih (i + 1) _ d (fun y hy => h y (List.mem_cons_of_mem _ hy))]
          apply dget?_dset_ne
          intro he
          exact h x (List.mem_cons_self x t) (he ▸ hk)

theorem rankMapAux_lookup {α : Type} (key : α → Option String) :
    ∀ (l : List α) (j : ℕ) (i : ℕ) (m : List (String × ℕ)) (x : α) (d : String),
      l.get? j = some x → key x = some d →
      (∀ (k : ℕ) (y : α), j < k → l.get? k = some y → key y ≠ some d) →
      dget? (rankMapAux key i l m) d = some (i + j) := by
  intro l
  induction l with
  | nil => intro j i m x d hj; simp at hj
  | cons x0 t ih =>
      intro j i m x d hj hk hlater
      cases j with
      | zero =>
          obtain rfl : x0 = x := by simpa using hj
          simp only [rankMapAux, hk]
          rw [rankMapAux_untouched key t (i + 1) _ d ?_]
          · rw [dget?_dset_self]; simp
          · intro y hy
            obtain ⟨k, hk'⟩ := List.get?_of_mem hy
            exact hlater (k + 1) y (Nat.succ_pos k) (by simpa using hk')
      | succ j' =>
          simp only [rankMapAux]
          have hrec := ih j' (i + 1) (match key x0 with
            | some d' => dset m d' i
            | none => m) x d (by simpa using hj) hk ?_
          · rw [hrec]
            congr 1
            omega
          · intro k y hky hget
            exact hlater (k + 1) y (by omega) (by simpa using hget)

/-- Amended claim C7: the rank used for a source from which a record is
absent (no DOI match, no normalised-title match) is `max(len, 1)` —
the source's list length when non-empty, `1` when it is empty. -/
theorem rrfRank_unmatched (dois : List (Option String)) (titles : List String)
    (n : ℕ) (doi : Option String) (title : String)
    (h1 : ∀ od ∈ dois, ∀ d : String, doi = some d → d ≠ "" → normalizeDoi od ≠ some d)
    (h2 : ∀ t ∈ titles, t ≠ "" → normTitle t ≠ normTitle title) :
    rrfRank (rankByDoi dois) (rankByTitle titles) n doi title = n := by
  have hT : dget? (rankByTitle titles) (normTitle title) = none := by
    apply dget?_eq_none
    intro p hp
    rcases rankMapAux_mem keyTitle titles 0 [] p hp with h | h
    · simp at h
    · obtain ⟨t, ht, hkt⟩ := h
      unfold keyTitle at hkt
      by_cases he : t = ""
      · rw [if_pos he] at hkt; cases hkt
      · rw [if_neg he] at hkt
        intro hc
        exact h2 t ht he (by rw [← hc, ← Option.some.injEq, hkt])
  unfold rrfRank
  cases doi with
  | none =>
      simp only [truthy, Bool.false_eq_true, if_false, dgetD, hT, Option.getD_none]
  | some d =>
      by_cases hd : d = ""
      · subst hd
        have : truthy (some "") = false := by simp [truthy]
        rw [this]
        simp only [Bool.false_eq_true, if_false, dgetD, hT, Option.getD_none]
      · have htr : truthy (some d) = true := by simp [truthy, hd]
        rw [htr]
        simp only [if_true]
        have hD : dget? (rankByDoi dois) d = none := by
          apply dget?_eq_none
          intro p hp
          rcases rankMapAux_mem keyDoi dois 0 [] p hp with h | h
          · simp at h
          · obtain ⟨od, hod, hkod⟩ := h
            unfold keyDoi at hkod
            intro hc
            cases hnd : normalizeDoi od with
            | none => rw [hnd] at hkod; cases hkod
            | some d' =>
                rw [hnd] at hkod
                dsimp only at hkod
                by_cases hd' : d' = ""
                · rw [if_pos hd'] at hkod; cases hkod
                · rw [if_neg hd'] at hkod
                  have : d' = p.1 := by simpa using hkod
                  exact h1 od hod d rfl hd (by rw [hnd, this, hc])
        rw [hD]
        simp only [Option.getD_none, dgetD, hT]

/-- C7, amended, at the level of `_compute_rrf`: a record matched by
neither DOI nor title in the OpenAlex list gets OA-side rank
`max(len(oa_results), 1)` (the list length when non-empty, 1 when
empty); both sources use the same lookup, so the statement covers
either side. -/
theorem computeRRF_unmatched_oa (oaDois : List (Option String)) (oaTitles : List String)
    (s2Dois : List (Option String)) (s2Titles : List String)
    (doi : Option String) (title : String)
    (h1 : ∀ od ∈ oaDois, ∀ d : String, doi = some d → d ≠ "" → normalizeDoi od ≠ some d)
    (h2 : ∀ t ∈ oaTitles, t ≠ "" → normTitle t ≠ normTitle title) :
    computeRRF oaDois oaTitles s2Dois s2Titles doi title =
      1 / (RRF_K + (max oaDois.length 1 : ℕ)) +
        1 / (RRF_K +
          (rrfRank (rankByDoi s2Dois) (rankByTitle s2Titles) (max s2Dois.length 1)
            doi title : ℕ)) := by
  unfold computeRRF
  dsimp only
  rw [rrfRank_unmatched oaDois oaTitles _ doi title h1 h2]

/-- Witness for C7: a fresh record against a one-element OA list gets
OA-side rank 1 = max(1,1). -/
theorem computeRRF_unmatched_oa_witness :
    computeRRF [some "10.1/a"] ["Other Title"] [] [] (some "10.9/z") "New Title" =
      1 / (RRF_K + (1 : ℕ)) + 1 / (RRF_K + (1 : ℕ)) := by
  have h := computeRRF_unmatched_oa [some "10.1/a"] ["Other Title"] [] []
    (some "10.9/z") "New Title"
    (by
      intro od hod d hd hdne hne
      rw [List.mem_singleton] at hod
      subst hod
      obtain rfl : d = "10.9/z" := by simpa using hd.symm
      revert hne
      decide)
    (by
      intro t ht _
      rw [List.mem_singleton] at ht
      subst ht
      decide)
  rw [h]
  rfl

/-- Counterexample to C7 as stated: with an *empty* OpenAlex list the
unmatched-side rank is `max(0, 1) = 1`, not the list length `0` — the
fused S2-only record scores `1/61 + 1/60`, not `1/60 + 1/60`. -/
theorem rrf_empty_list_counterexample :
    (mergeResults [] [⟨"s2a", some "10.1/x", "Test Paper", none, none, none, none⟩]).map
        (fun r => r.rrf_score) = [1 / (60 + 1) + 1 / (60 + 0)] ∧
      (1 / (60 + 1) + 1 / (60 + 0) : ℚ) ≠ 1 / (60 + 0) + 1 / (60 + 0) := by
  constructor
  · rfl
  · norm_num

/-! ## C8: RRF monotonicity -/

@[simp] theorem phase1U_score (rrf) (s2d s2t) (w : OAWork) :
    (phase1U rrf s2d s2t w).rrf_score = rrf (normalizeDoi w.doi) w.title := rfl

@[simp] theorem s2Unified_score (rrf) (doi : Option String) (p : S2Paper) :
    (s2Unified rrf doi p).rrf_score = rrf doi p.title := rfl

/-- Every record appended by the OA loop carries the RRF score of its
own (normalised DOI, title) pair. -/
theorem phase1_score (rrf : Option String → String → ℚ) :
    ∀ (ws : List OAWork) (acc : FusionState × List (String × S2Paper) × List (String × S2Paper)),
      (∀ r ∈ acc.1.merged, r.rrf_score = rrf r.doi r.title) →
      ∀ r ∈ (ws.foldl (phase1Step rrf) acc).1.merged, r.rrf_score = rrf r.doi r.title := by
  intro ws
  induction ws with
  | nil => intro acc h; exact h
  | cons w t ih =>
      intro acc h
      simp only [List.foldl_cons]
      apply ih
      intro r hr
      rcases List.mem_append.mp hr with hr | hr
      · exact h r hr
      · rw [List.mem_singleton] at hr
        subst hr
        simp

theorem phase2_score (rrf : Option String → String → ℚ) :
    ∀ (es : List (String × S2Paper)) (st : FusionState),
      DoiKeyed es →
      (∀ r ∈ st.merged, r.rrf_score = rrf r.doi r.title) →
      ∀ r ∈ (es.foldl (phase2Step rrf) st).merged, r.rrf_score = rrf r.doi r.title := by
  intro es
  induction es with
  | nil => intro st _ h; exact h
  | cons e t ih =>
      intro st hK h
      simp only [List.foldl_cons]
      apply ih _ (fun p hp => hK p (List.mem_cons_of_mem _ hp))
      obtain ⟨hkey, _⟩ := hK e (List.mem_cons_self e t)
      unfold phase2Step
      split
      · exact h
      · dsimp only
        by_cases he : e.2.title = ""
        · rw [if_neg (by simp [he])]
          exact h
        · rw [show (if e.2.title ≠ "" then normTitle e.2.title else "") = normTitle e.2.title
            from by simp [he]]
          split
          · intro r hr
            rcases List.mem_append.mp hr with hr | hr
            · exact h r hr
            · rw [List.mem_singleton] at hr
              subst hr
              simp [hkey]
          · exact h

theorem phase3_score (rrf : Option String → String → ℚ) :
    ∀ (es : List (String × S2Paper)) (st : FusionState),
      (∀ r ∈ st.merged, r.rrf_score = rrf r.doi r.title) →
      ∀ r ∈ (es.foldl (phase3Step rrf) st).merged, r.rrf_score = rrf r.doi r.title := by
  intro es
  induction es with
  | nil => intro st h; exact h
  | cons e t ih =>
      intro st h
      simp only [List.foldl_cons]
      apply ih
      unfold phase3Step
      split
      · exact h
      · dsimp only
        split
        · exact h
        · intro r hr
          rcases List.mem_append.mp hr with hr | hr
          · exact h r hr
          · rw [List.mem_singleton] at hr
            subst hr
            simp

/-- Every fused record's `rrf_score` is `_compute_rrf` of its own
normalised DOI and title. -/
theorem mergeResults_score (oa : List OAWork) (s2 : List S2Paper) :
    ∀ r ∈ mergeResults oa s2,
      r.rrf_score =
        computeRRF (oa.map (·.doi)) (oa.map (·.title)) (s2.map (·.doi)) (s2.map (·.title))
          r.doi r.title := by
  intro r hr
  set f := computeRRF (oa.map (·.doi)) (oa.map (·.title)) (s2.map (·.doi)) (s2.map (·.title))
    with hf
  have hKeyed : DoiKeyed (oa.foldl (phase1Step f)
      (⟨[], [], []⟩, buildS2ByDoi s2, buildS2ByTitle s2)).2.1 := by
    suffices H : ∀ (ws : List OAWork) acc, DoiKeyed acc.2.1 → TitleKeyed acc.2.2 →
        DoiKeyed (ws.foldl (phase1Step f) acc).2.1 ∧
          TitleKeyed (ws.foldl (phase1Step f) acc).2.2 by
      exact (H oa _ (doiKeyed_build s2) (titleKeyed_build s2)).1
    intro ws
    induction ws with
    | nil => intro acc h1 h2; exact ⟨h1, h2⟩
    | cons w t ih =>
        intro acc h1 h2
        simp only [List.foldl_cons]
        exact ih _ (findS2Match_keyed h1 h2).1 (findS2Match_keyed h1 h2).2
  have h1 := phase1_score f oa (⟨[], [], []⟩, buildS2ByDoi s2, buildS2ByTitle s2)
    (by intro r' hr'; cases hr')
  have h2 := phase2_score f
    (oa.foldl (phase1Step f) (⟨[], [], []⟩, buildS2ByDoi s2, buildS2ByTitle s2)).2.1
    (oa.foldl (phase1Step f) (⟨[], [], []⟩, buildS2ByDoi s2, buildS2ByTitle s2)).1
    hKeyed h1
  have h3 := phase3_score f
    (oa.foldl (phase1Step f) (⟨[], [], []⟩, buildS2ByDoi s2, buildS2ByTitle s2)).2.2 _ h2
  exact h3 r hr

/-- When ranks are well defined, the rank the RRF lookup uses for a
record appearing at position `i` is exactly `i`. -/
theorem rrfRank_of_appears (dois : List (Option String)) (titles : List String)
    (hD : dois.Pairwise DoiDistinctO) (hT : titles.Pairwise TitleDistinctS)
    (r : UnifiedPaper) (i n : ℕ) (h : appearsAt dois titles r i) :
    rrfRank (rankByDoi dois) (rankByTitle titles) n r.doi r.title = i := by
  rcases h with ⟨d, hrd, hdne, od, hget, hnd⟩ | ⟨hft, t, hget, htne, hteq⟩
  · -- DOI match at position i
    have hlook : dget? (rankByDoi dois) d = some (0 + i) := by
      apply rankMapAux_lookup keyDoi dois i 0 [] od d hget
      · unfold keyDoi; rw [hnd]; dsimp only; rw [if_neg hdne]
      · intro k y hik hgety hkey
        unfold keyDoi at hkey
        obtain ⟨hlt, hgete⟩ := List.get?_eq_some.mp hget
        obtain ⟨hlt', hgete'⟩ := List.get?_eq_some.mp hgety
        have hrel := List.pairwise_iff_get.mp hD ⟨i, hlt⟩ ⟨k, hlt'⟩ hik
        rw [hgete, hgete'] at hrel
        cases hndy : normalizeDoi y with
        | none => rw [hndy] at hkey; cases hkey
        | some d' =>
            rw [hndy] at hkey
            dsimp only at hkey
            by_cases hd' : d' = ""
            · rw [if_pos hd'] at hkey; cases hkey
            · rw [if_neg hd'] at hkey
              have : d' = d := by simpa using hkey
              subst this
              exact hrel d' hnd hd' hndy
    unfold rrfRank
    have htr : truthy r.doi = true := by rw [hrd]; simp [truthy, hdne]
    rw [htr, if_pos rfl, hrd]
    dsimp only
    rw [hlook]
    simp
  · -- title match at position i
    have hlook : dget? (rankByTitle titles) (normTitle r.title) = some (0 + i) := by
      apply rankMapAux_lookup keyTitle titles i 0 [] t (normTitle r.title) hget
      · unfold keyTitle; rw [if_neg htne, hteq]
      · intro k y hik hgety hkey
        unfold keyTitle at hkey
        by_cases hy : y = ""
        · rw [if_pos hy] at hkey; cases hkey
        · rw [if_neg hy] at hkey
          obtain ⟨hlt, hgete⟩ := List.get?_eq_some.mp hget
          obtain ⟨hlt', hgete'⟩ := List.get?_eq_some.mp hgety
          have hrel := List.pairwise_iff_get.mp hT ⟨i, hlt⟩ ⟨k, hlt'⟩ hik
          rw [hgete, hgete'] at hrel
          have : normTitle y = normTitle r.title := by simpa using hkey
          exact hrel htne hy (by rw [this, hteq])
    unfold rrfRank
    rw [hft]
    simp only [Bool.false_eq_true, if_false, dgetD, hlook]
    simp

/-- C8: if fused record `X` appears at a strictly earlier rank than
`Y` in both source lists (ranks well defined via the pairwise
distinctness hypotheses), then `X`'s RRF score is at least `Y`'s. -/
theorem mergeResults_rrf_monotone (oa : List OAWork) (s2 : List S2Paper)
    (X Y : UnifiedPaper)
    (hX : X ∈ mergeResults oa s2) (hY : Y ∈ mergeResults oa s2)
    (hDoa : (oa.map (·.doi)).Pairwise DoiDistinctO)
    (hToa : (oa.map (·.title)).Pairwise TitleDistinctS)
    (hDs2 : (s2.map (·.doi)).Pairwise DoiDistinctO)
    (hTs2 : (s2.map (·.title)).Pairwise TitleDistinctS)
    (i i' j j' : ℕ)
    (hXoa : appearsAt (oa.map (·.doi)) (oa.map (·.title)) X i)
    (hYoa : appearsAt (oa.map (·.doi)) (oa.map (·.title)) Y i')
    (hXs2 : appearsAt (s2.map (·.doi)) (s2.map (·.title)) X j)
    (hYs2 : appearsAt (s2.map (·.doi)) (s2.map (·.title)) Y j')
    (hii : i < i') (hjj : j < j') :
    Y.rrf_score ≤ X.rrf_score := by
  rw [mergeResults_score oa s2 X hX, mergeResults_score oa s2 Y hY]
  unfold computeRRF
  dsimp only
  rw [rrfRank_of_appears _ _ hDoa hToa X i _ hXoa,
      rrfRank_of_appears _ _ hDoa hToa Y i' _ hYoa,
      rrfRank_of_appears _ _ hDs2 hTs2 X j _ hXs2,
      rrfRank_of_appears _ _ hDs2 hTs2 Y j' _ hYs2]
  have hterm : ∀ a b : ℕ, a < b → (1 : ℚ) / (RRF_K + b) ≤ 1 / (RRF_K + a) := by
    intro a b hab
    apply one_div_le_one_div_of_le
    · have : (0 : ℚ) ≤ (a : ℚ) := Nat.cast_nonneg a
      unfold RRF_K
      linarith
    · have : (a : ℚ) ≤ (b : ℚ) := Nat.cast_le.mpr hab.le
      linarith
  exact add_le_add (hterm i i' hii) (hterm j j' hjj)

theorem mergeC8_eq : mergeResults oaC8 s2C8 = [uXC8, uYC8] := rfl

theorem oaC8_dois : oaC8.map (·.doi) = [some "10.1/a", some "10.1/b"] := rfl

theorem oaC8_titles : oaC8.map (·.title) = ["t a", "t b"] := rfl

theorem s2C8_dois : s2C8.map (·.doi) = [some "10.1/a", some "10.1/b"] := rfl

theorem s2C8_titles : s2C8.map (·.title) = ["t a", "t b"] := rfl

theorem pairDoiC8 : ([some "10.1/a", some "10.1/b"] :
    List (Option String)).Pairwise DoiDistinctO := by
  refine List.pairwise_cons.mpr ⟨?_, List.pairwise_singleton _ _⟩
  intro o2 ho2 d h1 hdne
  rw [List.mem_singleton] at ho2
  subst ho2
  have hn : normalizeDoi (some "10.1/a") = some "10.1/a" := rfl
  rw [hn] at h1
  obtain rfl : "10.1/a" = d := Option.some.inj h1
  decide

theorem pairTitleC8 : (["t a", "t b"] : List String).Pairwise TitleDistinctS := by
  refine List.pairwise_cons.mpr ⟨?_, List.pairwise_singleton _ _⟩
  intro t2 ht2 _ _
  rw [List.mem_singleton] at ht2
  subst ht2
  decide

theorem mergeResults_rrf_monotone_witness : uYC8.rrf_score ≤ uXC8.rrf_score := by
  exact mergeResults_rrf_monotone oaC8 s2C8 uXC8 uYC8
    (by rw [mergeC8_eq]; exact List.mem_cons_self _ _)
    (by rw [mergeC8_eq]; exact List.mem_cons_of_mem _ (List.mem_cons_self _ _))
    (by rw [oaC8_dois]; exact pairDoiC8)
    (by rw [oaC8_titles]; exact pairTitleC8)
    (by rw [s2C8_dois]; exact pairDoiC8)
    (by rw [s2C8_titles]; exact pairTitleC8)
    0 1 0 1
    (Or.inl ⟨"10.1/a", rfl, by decide, some "10.1/a", by rw [oaC8_dois]; rfl, by decide⟩)
    (Or.inl ⟨"10.1/b", rfl, by decide, some "10.1/b", by rw [oaC8_dois]; rfl, by decide⟩)
    (Or.inl ⟨"10.1/a", rfl, by decide, some "10.1/a", by rw [s2C8_dois]; rfl, by decide⟩)
    (Or.inl ⟨"10.1/b", rfl, by decide, some "10.1/b", by rw [s2C8_dois]; rfl, by decide⟩)
    (by decide) (by decide)

theorem dget?_append {κ ν : Type} [BEq κ] (m l : List (κ × ν)) (a : κ) :
    dget? (m ++ l) a =
      match dget? m a with
      | some v => some v
      | none => dget? l a := by
  induction m with
  | nil => simp
  | cons x t ih =>
      rw [List.cons_append, dget?_cons, dget?_cons]
      by_cases hx : (x.1 == a) = true
      · rw [if_pos hx, if_pos hx]
      · rw [if_neg hx, if_neg hx]
        exact ih

theorem addCredit_self (m : List (String × List Int)) (k : String) (c : Int) :
    dget? (addCredit m k c) k =
      some (match dget? m k with
            | some l => if c ∈ l then l else l ++ [c]
            | none => [c]) := by
  unfold addCredit
  cases h : dget? m k with
  | some l => rw [dget?_dset_self]
  | none =>
      rw [dget?_append, h]
      rw [dget?_cons]
      simp

theorem addCredit_other (m : List (String × List Int)) {k k' : String} (c : Int)
    (h : k ≠ k') : dget? (addCredit m k c) k' = dget? m k' := by
  unfold addCredit
  cases hm : dget? m k with
  | some l => rw [dget?_dset_ne _ _ h]
  | none =>
      rw [dget?_append]
      cases hk' : dget? m k' with
      | some v => rfl
      | none =>
          rw [dget?_cons]
          simp only [dget?_nil]
          rw [if_neg (by simpa using h)]

/-- Keys of `dset` are the old keys, possibly extended by the new key. -/
theorem dset_keys_sub {κ ν : Type} [BEq κ] [LawfulBEq κ] (m : List (κ × ν)) (a : κ) (b : ν) :
    (dset m a b).map Prod.fst = m.map Prod.fst ∨
      (dset m a b).map Prod.fst = m.map Prod.fst ++ [a] := by
  induction m with
  | nil => right; simp [dset]
  | cons x t ih =>
      simp only [dset]
      by_cases hx : (x.1 == a) = true
      · left
        rw [if_pos hx]
        have : x.1 = a := by simpa using hx
        simp [this]
      · rw [if_neg hx]
        rcases ih with h | h
        · left; simp [h]
        · right; simp [h]

theorem dmem_iff_key_mem {κ ν : Type} [BEq κ] [LawfulBEq κ] (m : List (κ × ν)) (a : κ) :
    (dget? m a).isSome ↔ a ∈ m.map Prod.fst := by
  induction m with
  | nil => simp
  | cons x t ih =>
      rw [dget?_cons]
      by_cases hx : (x.1 == a) = true
      · rw [if_pos hx]
        have : x.1 = a := by simpa using hx
        simp [this]
      · rw [if_neg hx]
        have : ¬ x.1 = a := by simpa using hx
        simp only [List.map_cons, List.mem_cons]
        rw [ih]
        constructor
        · intro h; right; exact h
        · intro h
          rcases h with h | h
          · exact absurd h.symm this
          · exact h

theorem dset_keys_nodup {κ ν : Type} [BEq κ] [LawfulBEq κ] (m : List (κ × ν)) (a : κ) (b : ν)
    (h : (m.map Prod.fst).Nodup) (hnew : ∀ p ∈ m, ¬ (p.1 == a) = true) :
    ((dset m a b).map Prod.fst).Nodup := by
  induction m with
  | nil => simp [dset]
  | cons x t ih =>
      simp only [dset]
      rw [if_neg (hnew x (List.mem_cons_self x t))]
      simp only [List.map_cons, List.nodup_cons] at h ⊢
      constructor
      · intro hmem
        rcases dset_keys_sub t a b with hk | hk
        · rw [hk] at hmem; exact h.1 hmem
        · rw [hk] at hmem
          rcases List.mem_append.mp hmem with hm | hm
          · exact h.1 hm
          · rw [List.mem_singleton] at hm
            exact hnew x (List.mem_cons_self x t) (by simpa using hm)
      · exact ih h.2 (fun p hp => hnew p (List.mem_cons_of_mem _ hp))

/-- `dset` never loses keys. -/
theorem dset_keys_sup {κ ν : Type} [BEq κ] [LawfulBEq κ] (m : List (κ × ν)) (a : κ) (b : ν) (k : κ)
    (h : k ∈ m.map Prod.fst) : k ∈ (dset m a b).map Prod.fst := by
  rcases dset_keys_sub m a b with h' | h' <;> rw [h']
  · exact h
  · exact List.mem_append.mpr (Or.inl h)

theorem addCredit_keys_nodup (m : List (String × List Int)) (k : String) (c : Int)
    (h : (m.map Prod.fst).Nodup) : ((addCredit m k c).map Prod.fst).Nodup := by
  unfold addCredit
  cases hm : dget? m k with
  | some l =>
      by_cases hk : k ∈ m.map Prod.fst
      · -- overwrite in place: we need nodup of dset when key present.
        -- `dset` with a present key keeps the same key list.
        induction m with
        | nil => simp [dset]
        | cons x t ih =>
            simp only [dset]
            by_cases hx : (x.1 == k) = true
            · rw [if_pos hx]
              have hxk : x.1 = k := by simpa using hx
              simp only [List.map_cons, List.nodup_cons] at h ⊢
              rw [← hxk]
              exact h
            · rw [if_neg hx]
              simp only [List.map_cons, List.nodup_cons] at h ⊢
              rw [dget?_cons, if_neg hx] at hm
              have hk' : k ∈ t.map Prod.fst := by
                have := (dmem_iff_key_mem t k).mp (by rw [hm]; rfl)
                exact this
              refine ⟨?_, ih h.2 hm hk'⟩
              intro hmem
              rcases dset_keys_sub t k (if c ∈ l then l else l ++ [c]) with hs | hs
              · rw [hs] at hmem; exact h.1 hmem
              · rw [hs] at hmem
                rcases List.mem_append.mp hmem with hm' | hm'
                · exact h.1 hm'
                · rw [List.mem_singleton] at hm'
                  exact absurd hm' (by simpa using hx)
      · exact absurd ((dmem_iff_key_mem m k).mp (by rw [hm]; rfl)) hk
  | none =>
      rw [List.map_append]
      simp only [List.map_cons, List.map_nil]
      rw [List.nodup_append]
      refine ⟨h, List.nodup_singleton k, ?_⟩
      intro a ha hb
      rw [List.mem_singleton] at hb
      subst hb
      have := (dmem_iff_key_mem m a).mpr ha
      rw [hm] at this
      cases this

theorem bridgeScores_keys_nodup (nodes : List BNode) (edges : List BEdge) :
    ((bridgeScores nodes edges).map Prod.fst).Nodup := by
  unfold bridgeScores
  suffices H : ∀ (es : List BEdge) (m : List (String × List Int)),
      (m.map Prod.fst).Nodup →
      ((es.foldl (fun m e =>
        if crossEdge nodes e then
          addCredit (addCredit m e.source (clusterOf nodes e.target))
            e.target (clusterOf nodes e.source)
        else m) m).map Prod.fst).Nodup by
    exact H edges [] (by simp)
  intro es
  induction es with
  | nil => intro m h; exact h
  | cons e t ih =>
      intro m h
      simp only [List.foldl_cons]
      apply ih
      split
      · exact addCredit_keys_nodup _ _ _ (addCredit_keys_nodup _ _ _ h)
      · exact h

/-- With distinct keys, dictionary entries and lookups coincide. -/
theorem mem_iff_dget? {κ ν : Type} [BEq κ] [LawfulBEq κ] (m : List (κ × ν))
    (hnd : (m.map Prod.fst).Nodup) (a : κ) (b : ν) :
    (a, b) ∈ m ↔ dget? m a = some b := by
  constructor
  · intro h
    induction m with
    | nil => cases h
    | cons x t ih =>
        rw [dget?_cons]
        rcases List.mem_cons.mp h with h' | h'
        · rw [← h']
          simp
        · simp only [List.map_cons, List.nodup_cons] at hnd
          have hne : ¬ (x.1 == a) = true := by
            intro hx
            have : x.1 = a := by simpa using hx
            apply hnd.1
            rw [this]
            exact List.mem_map_of_mem Prod.fst h'
          rw [if_neg hne]
          exact ih hnd.2 h'
  · exact dget?_mem

theorem creditedClusters_nil (nodes : List BNode) (y : String) :
    creditedClusters nodes [] y = ∅ := rfl

theorem creditedClusters_cons (nodes : List BNode) (e : BEdge) (es : List BEdge)
    (y : String) :
    creditedClusters nodes (e :: es) y =
      creditedClusters nodes [e] y ∪ creditedClusters nodes es y := by
  unfold creditedClusters
  by_cases hc : crossEdge nodes e
  · simp only [List.filter_cons, hc, if_true]
    by_cases hs : e.source = y
    · simp [List.filterMap_cons, hs, List.toFinset_cons, ← Finset.insert_eq]
    · by_cases ht : e.target = y
      · simp [List.filterMap_cons, hs, ht, List.toFinset_cons, ← Finset.insert_eq]
      · simp [List.filterMap_cons, hs, ht]
  · simp [List.filter_cons, hc]

/-- Characterisation of the `bridge_scores` dictionary: a key is
present iff the node is credited at all, and its stored "set" is
exactly the set of distinct other clusters credited to the node. -/
theorem bridgeScores_spec (nodes : List BNode) (edges : List BEdge) (y : String) :
    (dget? (bridgeScores nodes edges) y = none →
      creditedClusters nodes edges y = ∅) ∧
    (∀ l, dget? (bridgeScores nodes edges) y = some l →
      l ≠ [] ∧ l.Nodup ∧ l.toFinset = creditedClusters nodes edges y) := by
  have main : ∀ (es : List BEdge) (m : List (String × List Int)) (F : String → Finset Int),
      (∀ z, (dget? m z = none → F z = ∅) ∧
        (∀ l, dget? m z = some l → l ≠ [] ∧ l.Nodup ∧ l.toFinset = F z)) →
      ∀ z, (dget? (es.foldl (fun m e =>
              if crossEdge nodes e then
                addCredit (addCredit m e.source (clusterOf nodes e.target))
                  e.target (clusterOf nodes e.source)
              else m) m) z = none → F z ∪ creditedClusters nodes es z = ∅) ∧
            (∀ l, dget? (es.foldl (fun m e =>
              if crossEdge nodes e then
                addCredit (addCredit m e.source (clusterOf nodes e.target))
                  e.target (clusterOf nodes e.source)
              else m) m) z = some l →
              l ≠ [] ∧ l.Nodup ∧ l.toFinset = F z ∪ creditedClusters nodes es z) := by
    intro es
    induction es with
    | nil =>
        intro m F hm z
        simp only [List.foldl_nil, creditedClusters_nil, Finset.union_empty]
        exact hm z
    | cons e t ih =>
        intro m F hm z
        simp only [List.foldl_cons]
        by_cases hc : crossEdge nodes e
        · rw [if_pos hc]
          -- source and target are distinct strings on a cross edge
          have hne : e.source ≠ e.target := by
            intro h
            unfold crossEdge at hc
            rw [h] at hc
            simp at hc
          have step : ∀ z', (dget? (addCredit (addCredit m e.source (clusterOf nodes e.target))
                e.target (clusterOf nodes e.source)) z' = none →
                (F z' ∪ creditedClusters nodes [e] z') = ∅) ∧
              (∀ l, dget? (addCredit (addCredit m e.source (clusterOf nodes e.target))
                e.target (clusterOf nodes e.source)) z' = some l →
                l ≠ [] ∧ l.Nodup ∧ l.toFinset = F z' ∪ creditedClusters nodes [e] z') := by
            intro z'
            have hcc : creditedClusters nodes [e] z' =
                if e.source = z' then {clusterOf nodes e.target}
                else if e.target = z' then {clusterOf nodes e.source} else ∅ := by
              unfold creditedClusters
              simp only [List.filter_cons, hc, if_true, List.filter_nil,
                List.filterMap_cons, List.filterMap_nil]
              by_cases hs : e.source = z'
              · simp [hs]
              · by_cases ht : e.target = z'
                · simp [hs, ht]
                · simp [hs, ht]
            by_cases hs : e.source = z'
            · -- z' is the source: outer addCredit (target) does not touch it
              subst hs
              rw [addCredit_other _ _ (fun h => hne h.symm)] at *
              rw [addCredit_self]
              constructor
              · intro h; cases h
              · intro l hl
                rw [hcc, if_pos rfl]
                cases hm' : dget? m e.source with
                | some l0 =>
                    obtain ⟨h0ne, h0nd, h0fs⟩ := (hm e.source).2 l0 hm'
                    rw [hm'] at hl
                    obtain rfl : (if clusterOf nodes e.target ∈ l0 then l0
                        else l0 ++ [clusterOf nodes e.target]) = l := by simpa using hl
                    by_cases hin : clusterOf nodes e.target ∈ l0
                    · rw [if_pos hin]
                      refine ⟨h0ne, h0nd, ?_⟩
                      rw [h0fs]
                      have : clusterOf nodes e.target ∈ F e.source := by
                        rw [← h0fs]; exact List.mem_toFinset.mpr hin
                      rw [Finset.union_comm]
                      rw [← Finset.insert_eq]
                      rw [Finset.insert_eq_self.mpr this]
                    · rw [if_neg hin]
                      refine ⟨by simp, ?_, ?_⟩
                      · rw [List.nodup_append]
                        exact ⟨h0nd, List.nodup_singleton _, by
                          intro a ha hb
                          rw [List.mem_singleton] at hb
                          subst hb
                          exact hin ha⟩
                      · rw [List.toFinset_append]
                        rw [h0fs]
                        simp [Finset.union_comm]
                | none =>
                    have h0 := (hm e.source).1 hm'
                    rw [hm'] at hl
                    obtain rfl : [clusterOf nodes e.target] = l := by simpa using hl
                    refine ⟨by simp, List.nodup_singleton _, ?_⟩
                    rw [h0]
                    simp
            · by_cases ht : e.target = z'
              · -- z' is the target: outer addCredit is the relevant one
                subst ht
                rw [addCredit_self]
                rw [addCredit_other _ _ hne]
                constructor
                · intro h; cases h
                · intro l hl
                  rw [hcc, if_neg hs, if_pos rfl]
                  cases hm' : dget? m e.target with
                  | some l0 =>
                      obtain ⟨h0ne, h0nd, h0fs⟩ := (hm e.target).2 l0 hm'
                      rw [hm'] at hl
                      obtain rfl : (if clusterOf nodes e.source ∈ l0 then l0
                          else l0 ++ [clusterOf nodes e.source]) = l := by simpa using hl
                      by_cases hin : clusterOf nodes e.source ∈ l0
                      · rw [if_pos hin]
                        refine ⟨h0ne, h0nd, ?_⟩
                        rw [h0fs]
                        have : clusterOf nodes e.source ∈ F e.target := by
                          rw [← h0fs]; exact List.mem_toFinset.mpr hin
                        rw [Finset.union_comm, ← Finset.insert_eq]
                        rw [Finset.insert_eq_self.mpr this]
                      · rw [if_neg hin]
                        refine ⟨by simp, ?_, ?_⟩
                        · rw [List.nodup_append]
                          exact ⟨h0nd, List.nodup_singleton _, by
                            intro a ha hb
                            rw [List.mem_singleton] at hb
                            subst hb
                            exact hin ha⟩
                        · rw [List.toFinset_append]
                          rw [h0fs]
                          simp [Finset.union_comm]
                  | none =>
                      have h0 := (hm e.target).1 hm'
                      rw [hm'] at hl
                      obtain rfl : [clusterOf nodes e.source] = l := by simpa using hl
                      refine ⟨by simp, List.nodup_singleton _, ?_⟩
                      rw [h0]
                      simp
              · -- z' is neither endpoint: untouched
                rw [addCredit_other _ _ (fun h => ht h)]
                rw [addCredit_other _ _ (fun h => hs h)]
                rw [hcc, if_neg hs, if_neg ht]
                constructor
                · intro h
                  rw [(hm z').1 h]
                  simp
                · intro l hl
                  obtain ⟨h0ne, h0nd, h0fs⟩ := (hm z').2 l hl
                  exact ⟨h0ne, h0nd, by rw [h0fs]; simp⟩
          have := ih _ (fun z' => F z' ∪ creditedClusters nodes [e] z') step z
          constructor
          · intro h
            have h' := this.1 h
            rw [creditedClusters_cons nodes e t]
            rw [Finset.union_assoc] at h'
            exact h'
          · intro l hl
            obtain ⟨h1, h2, h3⟩ := this.2 l hl
            refine ⟨h1, h2, ?_⟩
            rw [h3, creditedClusters_cons nodes e t, Finset.union_assoc]
        · rw [if_neg hc]
          have hcc : creditedClusters nodes [e] z = ∅ := by
            unfold creditedClusters
            simp [List.filter_cons, hc]
          have := ih m F hm z
          rw [creditedClusters_cons nodes e t, hcc, Finset.empty_union]
          exact this
  have := main edges [] (fun _ => ∅) (by
    intro z
    constructor
    · intro _; rfl
    · intro l hl; cases hl) y
  simpa [bridgeScores] using this

theorem bridgeScores_nodes_nil (edges : List BEdge) : bridgeScores [] edges = [] := by
  unfold bridgeScores
  have hcross : ∀ e : BEdge, crossEdge [] e = false := by
    intro e
    simp [crossEdge, clusterOf, nodeClusterMap, dgetD, dget?]
  induction edges with
  | nil => rfl
  | cons e t ih =>
      simp only [List.foldl_cons, hcross e, Bool.false_eq_true, if_false]
      exact ih

theorem bridgeCandidates_of_scores_nil (nodes : List BNode) (edges : List BEdge)
    (h : bridgeScores nodes edges = []) : bridgeCandidates nodes edges = [] := by
  simp [bridgeCandidates, h]

/-- C2, amended.  With a non-empty candidate set and `top_percentile`
in numpy's admissible range, the returned bridge set is exactly the
candidates (nodes credited with ≥ 2 distinct other non-noise clusters)
whose score is at least `max(2, int(percentile))` — the *larger* of 2
and the truncated `(1 − top_percentile)`-percentile of the candidate
scores, not the smaller. -/
theorem detect_bridge_spec (nodes : List BNode) (edges : List BEdge) (tp : ℚ)
    (htp0 : 0 ≤ tp) (htp1 : tp ≤ 1)
    (hne : bridgeCandidates nodes edges ≠ []) :
    (∀ p ∈ bridgeCandidates nodes edges,
        (p.2 : Int) = ((creditedClusters nodes edges p.1).card : Int)) ∧
      ∀ y : String, y ∈ detect_bridge_nodes nodes edges tp ↔
        (2 ≤ (creditedClusters nodes edges y).card ∧
          max 2 (pyInt (npPercentile
              ((bridgeCandidates nodes edges).map (fun p => (p.2 : ℚ)))
              ((1 - tp) * 100))) ≤ ((creditedClusters nodes edges y).card : Int)) := by
  have hnd := bridgeScores_keys_nodup nodes edges
  have hscore : ∀ p ∈ bridgeCandidates nodes edges,
      (p.2 : Int) = ((creditedClusters nodes edges p.1).card : Int) := by
    intro p hp
    unfold bridgeCandidates at hp
    rw [List.mem_filter] at hp
    obtain ⟨hp, _⟩ := hp
    rw [List.mem_map] at hp
    obtain ⟨q, hq, rfl⟩ := hp
    have hget := (mem_iff_dget? _ hnd q.1 q.2).mp hq
    obtain ⟨_, hnodup, hfs⟩ := (bridgeScores_spec nodes edges q.1).2 q.2 hget
    rw [← hfs, List.toFinset_card_of_nodup hnodup]
  refine ⟨hscore, ?_⟩
  have hBS : bridgeScores nodes edges ≠ [] := by
    intro h
    exact hne (bridgeCandidates_of_scores_nil nodes edges h)
  have hedges : edges ≠ [] := by
    intro h
    exact hBS (by rw [h]; rfl)
  have hnodes : nodes ≠ [] := by
    intro h
    exact hBS (by rw [h]; exact bridgeScores_nodes_nil edges)
  intro y
  unfold detect_bridge_nodes
  rw [if_neg (by simp [hnodes, hedges]), if_neg hBS, if_neg hne]
  simp only [List.mem_map, List.mem_filter]
  constructor
  · rintro ⟨p, ⟨hp, hth⟩, rfl⟩
    have hs := hscore p hp
    unfold bridgeCandidates at hp
    rw [List.mem_filter] at hp
    obtain ⟨_, h2⟩ := hp
    have h2' : 2 ≤ p.2 := by simpa using h2
    constructor
    · have : (2 : Int) ≤ (p.2 : Int) := by exact_mod_cast h2'
      rw [hs] at this
      exact_mod_cast this
    · rw [decide_eq_true_eq] at hth
      rw [← hs]
      exact hth
  · rintro ⟨hcard, hth⟩
    cases hget : dget? (bridgeScores nodes edges) y with
    | none =>
        have := (bridgeScores_spec nodes edges y).1 hget
        rw [this] at hcard
        simp at hcard
    | some l =>
        obtain ⟨_, hnodup, hfs⟩ := (bridgeScores_spec nodes edges y).2 l hget
        have hlen : l.length = (creditedClusters nodes edges y).card := by
          rw [← hfs, List.toFinset_card_of_nodup hnodup]
        refine ⟨(y, l.length), ⟨?_, ?_⟩, rfl⟩
        · unfold bridgeCandidates
          rw [List.mem_filter]
          constructor
          · rw [List.mem_map]
            exact ⟨(y, l), dget?_mem hget, rfl⟩
          · simp only [decide_eq_true_eq]
            rw [hlen]
            exact hcard
        · rw [decide_eq_true_eq, hlen]
          exact_mod_cast hth

theorem detect_bridge_spec_witness :
    (∀ p ∈ bridgeCandidates nsC2 esC2,
        (p.2 : Int) = ((creditedClusters nsC2 esC2 p.1).card : Int)) ∧
      ∀ y : String, y ∈ detect_bridge_nodes nsC2 esC2 (5 / 100) ↔
        (2 ≤ (creditedClusters nsC2 esC2 y).card ∧
          max 2 (pyInt (npPercentile
              ((bridgeCandidates nsC2 esC2).map (fun p => (p.2 : ℚ)))
              ((1 - 5 / 100) * 100))) ≤ ((creditedClusters nsC2 esC2 y).card : Int)) :=
  detect_bridge_spec nsC2 esC2 (5 / 100) (by norm_num) (by norm_num) (by decide)

/-- Counterexample to C2 as stated: the code thresholds at
`max(2, int(percentile))`, not at `min(2, percentile)`.  On this graph
the candidate scores are `[2, 5]` and the 95th percentile is `4.85`;
candidate `A` has score `2 ≥ min(2, 4.85)`, so the claim would make it
a bridge, but the code (threshold `max(2, 4) = 4`) rejects it. -/
theorem detect_bridge_counterexample :
    (bridgeCandidates nsC2 esC2).map (fun p => (p.2 : ℚ)) = [2, 5] ∧
      2 ≤ (creditedClusters nsC2 esC2 "A").card ∧
      min (2 : ℚ) (npPercentile [(2 : ℚ), 5] ((1 - 5 / 100) * 100)) ≤
        ((creditedClusters nsC2 esC2 "A").card : ℚ) ∧
      "A" ∉ detect_bridge_nodes nsC2 esC2 (5 / 100) := by
  have hc : bridgeCandidates nsC2 esC2 = [("A", 2), ("B", 5)] := by decide
  have hmap : (bridgeCandidates nsC2 esC2).map (fun p => (p.2 : ℚ)) = [2, 5] := by
    rw [hc]
    norm_num
  have hcard : (creditedClusters nsC2 esC2 "A").card = 2 := by decide
  have hsort : List.insertionSort (· ≤ ·) [(2 : ℚ), 5] = [2, 5] := by decide
  have hp : npPercentile [(2 : ℚ), 5] ((1 - 5 / 100) * 100) = 97 / 20 := by
    unfold npPercentile
    dsimp only
    rw [hsort]
    norm_num [List.getD]
  have hthr : max 2 (pyInt ((97 : ℚ) / 20)) = (4 : Int) := by
    unfold pyInt
    rw [if_neg (by norm_num)]
    norm_num
  refine ⟨hmap, by rw [hcard], ?_, ?_⟩
  · rw [hp, hcard]
    norm_num
  · unfold detect_bridge_nodes
    rw [if_neg (by decide), if_neg (by decide), if_neg (by decide)]
    dsimp only
    rw [hmap, hp, hthr, hc]
    decide

theorem pairsOf_mem {α : Type} : ∀ (l : List α) (p : α × α),
    p ∈ pairsOf l → p.1 ∈ l ∧ p.2 ∈ l := by
  intro l
  induction l with
  | nil => intro p hp; cases hp
  | cons x t ih =>
      intro p hp
      unfold pairsOf at hp
      rcases List.mem_append.mp hp with h | h
      · rw [List.mem_map] at h
        obtain ⟨y, hy, rfl⟩ := h
        exact ⟨List.mem_cons_self x t, List.mem_cons_of_mem _ hy⟩
      · obtain ⟨h1, h2⟩ := ih p h
        exact ⟨List.mem_cons_of_mem _ h1, List.mem_cons_of_mem _ h2⟩

theorem roundQ4_bounds {q : ℚ} (h0 : 0 ≤ q) (h1 : q ≤ 1) :
    0 ≤ roundQ4 q ∧ roundQ4 q ≤ 1 := by
  unfold roundQ4
  constructor
  · apply div_nonneg _ (by norm_num)
    have : (0 : Int) ≤ round (q * 10000) := by
      rw [round_eq]
      apply Int.floor_nonneg.mpr
      nlinarith
    exact_mod_cast this
  · rw [div_le_one (by norm_num)]
    have : round (q * 10000) ≤ (10000 : Int) := by
      rw [round_eq]
      have hlt : ⌊q * 10000 + 1 / 2⌋ < (10001 : Int) := by
        apply Int.floor_lt.mpr
        push_cast
        nlinarith
      omega
    exact_mod_cast this

/-- C3, amended: provided no cluster pair receives more counted
inter-cluster edges than `size_a * size_b` (true of the similarity
builder's duplicate-free edges, but not of arbitrary edge lists),
every produced gap strength lies in `[0, 1]`. -/
theorem detect_gaps_strength_bounds (papers : List GPaper)
    (clusters : List GCluster) (edges : List GEdge)
    (h : ∀ ca ∈ validClustersOf clusters, ∀ cb ∈ validClustersOf clusters,
      connCount (paperClusterMap papers) edges (pairKey ca.id cb.id) ≤
        clusterSize papers ca.id * clusterSize papers cb.id) :
    ∀ g ∈ detect_gaps papers clusters edges,
      0 ≤ g.gap_strength ∧ g.gap_strength ≤ 1 := by
  intro g hg
  unfold detect_gaps at hg
  split at hg
  · cases hg
  · split at hg
    · cases hg
    · rw [(List.perm_insertionSort _ _).mem_iff] at hg
      rw [List.mem_filter] at hg
      obtain ⟨hg, _⟩ := hg
      unfold gapsAll at hg
      rw [List.mem_filterMap] at hg
      obtain ⟨cab, hcab, hmk⟩ := hg
      obtain ⟨hca, hcb⟩ := pairsOf_mem _ cab hcab
      unfold mkGap at hmk
      dsimp only at hmk
      split at hmk
      · cases hmk
      · rename_i hsz
        rw [not_or] at hsz
        obtain ⟨hsa, hsb⟩ := hsz
        set sa := clusterSize papers cab.1.id with hsa'
        set sb := clusterSize papers cab.2.id with hsb'
        have hpos : 0 < sa * sb := Nat.mul_pos (Nat.pos_of_ne_zero hsa) (Nat.pos_of_ne_zero hsb)
        rw [if_pos hpos] at hmk
        obtain rfl := Option.some.inj hmk
        dsimp only
        have hact := h cab.1 hca cab.2 hcb
        have hq0 : (0 : ℚ) < ((sa * sb : ℕ) : ℚ) := by exact_mod_cast hpos
        have hfrac0 : (0 : ℚ) ≤ (connCount (paperClusterMap papers) edges
            (pairKey cab.1.id cab.2.id) : ℚ) / ((sa * sb : ℕ) : ℚ) := by
          apply div_nonneg _ (le_of_lt hq0)
          exact_mod_cast Nat.zero_le _
        have hfrac1 : (connCount (paperClusterMap papers) edges
            (pairKey cab.1.id cab.2.id) : ℚ) / ((sa * sb : ℕ) : ℚ) ≤ 1 := by
          rw [div_le_one hq0]
          exact_mod_cast hact
        have := @roundQ4_bounds (1 - (connCount (paperClusterMap papers) edges
            (pairKey cab.1.id cab.2.id) : ℚ) / ((sa * sb : ℕ) : ℚ))
          (by linarith) (by linarith)
        convert this using 3 <;> push_cast <;> ring

theorem detect_gaps_strength_bounds_witness :
    0 ≤ ((detect_gaps [⟨"p1", 0, none⟩, ⟨"p2", 1, none⟩]
          [⟨0, "c0"⟩, ⟨1, "c1"⟩] []).headD ⟨0, 0, 0, 0, 0⟩).gap_strength ∧
      ((detect_gaps [⟨"p1", 0, none⟩, ⟨"p2", 1, none⟩]
          [⟨0, "c0"⟩, ⟨1, "c1"⟩] []).headD ⟨0, 0, 0, 0, 0⟩).gap_strength ≤ 1 := by
  have hmk : mkGap [⟨"p1", 0, none⟩, ⟨"p2", 1, none⟩] []
      (paperClusterMap [⟨"p1", 0, none⟩, ⟨"p2", 1, none⟩]) (⟨0, "c0"⟩, ⟨1, "c1"⟩) =
      some ⟨0, 1, 1, 1, 1⟩ := by
    unfold mkGap
    dsimp only
    rw [if_neg (by decide), if_pos (by decide)]
    rw [show connCount (paperClusterMap [⟨"p1", 0, none⟩, ⟨"p2", 1, none⟩]) []
        (pairKey 0 1) = 0 from by decide]
    rw [show clusterSize [⟨"p1", 0, none⟩, ⟨"p2", 1, none⟩] (0 : Int) = 1 from by decide,
        show clusterSize [⟨"p1", 0, none⟩, ⟨"p2", 1, none⟩] (1 : Int) = 1 from by decide]
    refine congrArg some ?_
    simp only [StructuralGap.mk.injEq, true_and]
    unfold roundQ4
    rw [round_eq]
    push_cast
    norm_num
  have hgaps : gapsAll [⟨"p1", 0, none⟩, ⟨"p2", 1, none⟩]
      [⟨0, "c0"⟩, ⟨1, "c1"⟩] [] = [⟨0, 1, 1, 1, 1⟩] := by
    unfold gapsAll
    rw [show pairsOf (validClustersOf [⟨0, "c0"⟩, ⟨1, "c1"⟩]) =
        [(⟨0, "c0"⟩, ⟨1, "c1"⟩)] from by decide]
    simp only [List.filterMap_cons, List.filterMap_nil, hmk]
  have hev : detect_gaps [⟨"p1", 0, none⟩, ⟨"p2", 1, none⟩]
      [⟨0, "c0"⟩, ⟨1, "c1"⟩] [] = [⟨0, 1, 1, 1, 1⟩] := by
    unfold detect_gaps
    rw [if_neg (by decide), if_neg (by decide)]
    dsimp only
    rw [hgaps]
    rw [show adaptiveThreshold [(⟨0, 1, 1, 1, 1⟩ : StructuralGap)] = 7 / 10 from by
      unfold adaptiveThreshold
      rw [if_neg (by decide)]
      dsimp only
      rw [show ([(⟨0, 1, 1, 1, 1⟩ : StructuralGap)].map (fun g => g.gap_strength)) =
          [1] from rfl]
      rw [show List.insertionSort (· ≤ ·) [(1 : ℚ)] = [1] from by decide]
      rw [show pyInt ((([(1 : ℚ)].length : ℚ)) * (25 / 100)) = 0 from by
        unfold pyInt
        rw [if_neg (by norm_num)]
        norm_num]
      norm_num [List.getD]]
    rw [show List.filter (fun g => decide ((7 : ℚ) / 10 ≤ g.gap_strength))
        [(⟨0, 1, 1, 1, 1⟩ : StructuralGap)] = [⟨0, 1, 1, 1, 1⟩] from by
      rw [List.filter_cons, List.filter_nil]
      rw [if_pos (by simp only [decide_eq_true_eq]; norm_num)]]
    rfl
  exact detect_gaps_strength_bounds [⟨"p1", 0, none⟩, ⟨"p2", 1, none⟩]
    [⟨0, "c0"⟩, ⟨1, "c1"⟩] [] (by decide) _
    (by rw [hev]; exact List.mem_singleton_self _)

theorem gapsAll_C3 : gapsAll psC3 csC3 esC3 =
    [⟨0, 1, 1, 1, -10⟩, ⟨0, 2, 1, 1, -1⟩, ⟨1, 2, 1, 1, 1⟩] := by
  have h1 : mkGap psC3 esC3 (paperClusterMap psC3) (⟨0, "a"⟩, ⟨1, "b"⟩) =
      some ⟨0, 1, 1, 1, -10⟩ := by
    unfold mkGap
    dsimp only
    rw [if_neg (by decide), if_pos (by decide)]
    rw [show connCount (paperClusterMap psC3) esC3 (pairKey 0 1) = 11 from by decide]
    rw [show clusterSize psC3 (0 : Int) = 1 from by decide,
        show clusterSize psC3 (1 : Int) = 1 from by decide]
    refine congrArg some ?_
    simp only [StructuralGap.mk.injEq, true_and]
    unfold roundQ4
    rw [round_eq]
    push_cast
    norm_num
  have h2 : mkGap psC3 esC3 (paperClusterMap psC3) (⟨0, "a"⟩, ⟨2, "c"⟩) =
      some ⟨0, 2, 1, 1, -1⟩ := by
    unfold mkGap
    dsimp only
    rw [if_neg (by decide), if_pos (by decide)]
    rw [show connCount (paperClusterMap psC3) esC3 (pairKey 0 2) = 2 from by decide]
    rw [show clusterSize psC3 (0 : Int) = 1 from by decide,
        show clusterSize psC3 (2 : Int) = 1 from by decide]
    refine congrArg some ?_
    simp only [StructuralGap.mk.injEq, true_and]
    unfold roundQ4
    rw [round_eq]
    push_cast
    norm_num
  have h3 : mkGap psC3 esC3 (paperClusterMap psC3) (⟨1, "b"⟩, ⟨2, "c"⟩) =
      some ⟨1, 2, 1, 1, 1⟩ := by
    unfold mkGap
    dsimp only
    rw [if_neg (by decide), if_pos (by decide)]
    rw [show connCount (paperClusterMap psC3) esC3 (pairKey 1 2) = 0 from by decide]
    rw [show clusterSize psC3 (1 : Int) = 1 from by decide,
        show clusterSize psC3 (2 : Int) = 1 from by decide]
    refine congrArg some ?_
    simp only [StructuralGap.mk.injEq, true_and]
    unfold roundQ4
    rw [round_eq]
    push_cast
    norm_num
  unfold gapsAll
  rw [show pairsOf (validClustersOf csC3) =
      [(⟨0, "a"⟩, ⟨1, "b"⟩), (⟨0, "a"⟩, ⟨2, "c"⟩), (⟨1, "b"⟩, ⟨2, "c"⟩)] from by decide]
  simp only [List.filterMap_cons, List.filterMap_nil, h1, h2, h3]

theorem adaptiveThreshold_C3 :
    adaptiveThreshold [⟨0, 1, 1, 1, -10⟩, ⟨0, 2, 1, 1, -1⟩, ⟨1, 2, 1, 1, 1⟩] =
      -99 / 10 := by
  unfold adaptiveThreshold
  rw [if_neg (by decide)]
  dsimp only
  rw [show ([(⟨0, 1, 1, 1, -10⟩ : StructuralGap), ⟨0, 2, 1, 1, -1⟩,
      ⟨1, 2, 1, 1, 1⟩].map (fun g => g.gap_strength)) = [-10, -1, 1] from rfl]
  rw [show List.insertionSort (· ≤ ·) [(-10 : ℚ), -1, 1] = [-10, -1, 1] from by decide]
  rw [show pyInt (((([(-10 : ℚ), -1, 1].length) : ℚ)) * (25 / 100)) = 0 from by
    unfold pyInt
    rw [if_neg (by norm_num)]
    norm_num]
  norm_num [List.getD]

/-- Counterexample to C3 as stated: with duplicate inter-cluster edges
the code produces, and keeps after adaptive filtering, a gap with
`gap_strength = -1 < 0`. -/
theorem detect_gaps_counterexample :
    (detect_gaps psC3 csC3 esC3).map (fun g => g.gap_strength) = [1, -1] ∧
      ¬ (0 : ℚ) ≤ -1 := by
  constructor
  · unfold detect_gaps
    rw [if_neg (by decide), if_neg (by decide)]
    dsimp only
    rw [gapsAll_C3, adaptiveThreshold_C3]
    rw [show List.filter
        (fun g => decide ((-99 : ℚ) / 10 ≤ g.gap_strength))
        [(⟨0, 1, 1, 1, -10⟩ : StructuralGap), ⟨0, 2, 1, 1, -1⟩, ⟨1, 2, 1, 1, 1⟩] =
        [⟨0, 2, 1, 1, -1⟩, ⟨1, 2, 1, 1, 1⟩] from by
      rw [List.filter_cons, List.filter_cons, List.filter_cons, List.filter_nil]
      rw [if_neg (by simp only [decide_eq_true_eq]; norm_num)]
      rw [if_pos (by simp only [decide_eq_true_eq]; norm_num)]
      rw [if_pos (by simp only [decide_eq_true_eq]; norm_num)]]
    rw [show List.insertionSort (fun g1 g2 => g2.gap_strength ≤ g1.gap_strength)
        [(⟨0, 2, 1, 1, -1⟩ : StructuralGap), ⟨1, 2, 1, 1, 1⟩] =
        [⟨1, 2, 1, 1, 1⟩, ⟨0, 2, 1, 1, -1⟩] from by
      unfold List.insertionSort
      unfold List.insertionSort
      unfold List.insertionSort
      rw [List.orderedInsert, List.orderedInsert]
      rw [if_neg (by norm_num)]
      rw [List.orderedInsert]]
    rfl
  · norm_num

theorem yearCounts_mem (l : List TPaper) :
    ∀ kv ∈ yearCounts l, ∃ p ∈ l, truthyYear p = some kv.1 := by
  unfold yearCounts
  suffices H : ∀ (t : List TPaper) (m : List (Int × ℕ)),
      (∀ kv ∈ m, ∃ p ∈ l, truthyYear p = some kv.1) →
      (∀ p ∈ t, p ∈ l) →
      ∀ kv ∈ t.foldl
        (fun m p =>
          match truthyYear p with
          | some y => dset m y (dgetD m y 0 + 1)
          | none => m) m,
        ∃ p ∈ l, truthyYear p = some kv.1 by
    exact H l [] (by intro kv hkv; cases hkv) (fun p hp => hp)
  intro t
  induction t with
  | nil => intro m hm _ kv hkv; exact hm kv hkv
  | cons q s ih =>
      intro m hm hsub kv hkv
      simp only [List.foldl_cons] at hkv
      refine ih _ ?_ (fun p hp => hsub p (List.mem_cons_of_mem _ hp)) kv hkv
      intro kv' hkv'
      cases hq : truthyYear q with
      | none => rw [hq] at hkv'; exact hm kv' hkv'
      | some y =>
          rw [hq] at hkv'
          rcases mem_dset kv' hkv' with h | h
          · exact hm kv' h
          · subst h
            exact ⟨q, hsub q (List.mem_cons_self q s), hq⟩

theorem yearCounts_key_isSome (l : List TPaper) (y : Int) (p : TPaper)
    (hp : p ∈ l) (hy : truthyYear p = some y) :
    (dget? (yearCounts l) y).isSome := by
  unfold yearCounts
  suffices H : ∀ (t : List TPaper) (m : List (Int × ℕ)),
      ((dget? m y).isSome ∨ ∃ q ∈ t, truthyYear q = some y) →
      (dget? (t.foldl
        (fun m p =>
          match truthyYear p with
          | some y => dset m y (dgetD m y 0 + 1)
          | none => m) m) y).isSome by
    exact H l [] (Or.inr ⟨p, hp, hy⟩)
  intro t
  induction t with
  | nil =>
      intro m hm
      rcases hm with h | h
      · exact h
      · obtain ⟨q, hq, _⟩ := h; cases hq
  | cons q s ih =>
      intro m hm
      simp only [List.foldl_cons]
      apply ih
      cases hq : truthyYear q with
      | none =>
          rcases hm with h | h
          · exact Or.inl h
          · obtain ⟨q', hq', hy'⟩ := h
            rcases List.mem_cons.mp hq' with h' | h'
            · subst h'; rw [hq] at hy'; cases hy'
            · exact Or.inr ⟨q', h', hy'⟩
      | some y' =>
          by_cases hyy : y' = y
          · subst hyy
            left
            rw [dget?_dset_self]
            rfl
          · rcases hm with h | h
            · left
              rw [dget?_dset_ne _ _ hyy]
              exact h
            · obtain ⟨q', hq', hy'⟩ := h
              rcases List.mem_cons.mp hq' with h' | h'
              · subst h'
                rw [hq] at hy'
                exact absurd (by simpa using hy') hyy
              · right; exact ⟨q', h', hy'⟩

theorem getD_mem_of_lt {α : Type} (l : List α) (i : ℕ) (d : α) (h : i < l.length) :
    l.getD i d ∈ l := by
  induction l generalizing i with
  | nil => simp at h
  | cons x t ih =>
      cases i with
      | zero => simp [List.getD]
      | succ j =>
          simp only [List.getD_cons_succ]
          exact List.mem_cons_of_mem _ (ih j (by simpa using h))

@[simp] theorem analyzeCluster_cluster_id (cid : Int) (label : String)
    (cp : List TPaper) (gmax : Int) :
    (analyzeCluster cid label cp gmax).cluster_id = cid := by
  unfold analyzeCluster
  dsimp only
  split <;> rfl

/-- A cluster all of whose known years lie at or before
`global_max_year − 3` is classified `declining`. -/
theorem analyzeCluster_declining (cid : Int) (label : String) (cp : List TPaper)
    (gmax : Int)
    (hne : ∃ p ∈ cp, (truthyYear p).isSome)
    (hall : ∀ p ∈ cp, ∀ y : Int, truthyYear p = some y → y ≤ gmax - 3) :
    (analyzeCluster cid label cp gmax).classification = "declining" := by
  obtain ⟨p, hp, hy⟩ := hne
  obtain ⟨y, hy⟩ := Option.isSome_iff_exists.mp hy
  have hycne : yearCounts cp ≠ [] := by
    intro h
    have := yearCounts_key_isSome cp y p hp hy
    rw [h] at this
    cases this
  unfold analyzeCluster
  rw [if_neg hycne]
  dsimp only
  have hkeys : ∀ k ∈ ((yearCounts cp).map (·.1)), k ≤ gmax - 3 := by
    intro k hk
    rw [List.mem_map] at hk
    obtain ⟨kv, hkv, rfl⟩ := hk
    obtain ⟨q, hq, hqy⟩ := yearCounts_mem cp kv hkv
    exact hall q hq _ hqy
  have hperm := List.perm_insertionSort (· ≤ ·) ((yearCounts cp).map (·.1))
  have hsne : ((yearCounts cp).map (·.1)).insertionSort (· ≤ ·) ≠ [] := by
    intro h
    rw [h] at hperm
    have := hperm.symm.eq_nil
    rw [List.map_eq_nil] at this
    exact hycne this
  have hslen : 0 < (((yearCounts cp).map (·.1)).insertionSort (· ≤ ·)).length :=
    List.length_pos.mpr hsne
  have hfirst : (((yearCounts cp).map (·.1)).insertionSort (· ≤ ·)).getD 0 0 ≤ gmax - 3 := by
    apply hkeys
    rw [← hperm.mem_iff]
    exact getD_mem_of_lt _ 0 0 hslen
  have hlast : (((yearCounts cp).map (·.1)).insertionSort (· ≤ ·)).getD
      ((((yearCounts cp).map (·.1)).insertionSort (· ≤ ·)).length - 1) 0 ≤ gmax - 3 := by
    apply hkeys
    rw [← hperm.mem_iff]
    exact getD_mem_of_lt _ _ 0 (by omega)
  unfold classify
  rw [if_neg (by
    rintro ⟨h1, _⟩
    omega)]
  rw [if_pos hlast]

/-- Loop invariant for the per-cluster dispatch: if every entry for
cluster id `cid` classifies as declining, then after the loop no
emerging/stable trend carries `cid`, and a declining one does as soon
as some `cid` entry was processed (or was already present). -/
theorem trendFold_spec (papers : List TPaper) (clusters : List TCluster)
    (gmax : Int) (cid : Int)
    (hdecl : ∀ c' : TCluster, c'.id = cid →
      (papers.filter (fun p => p.cluster == c'.id)) ≠ [] →
      (analyzeCluster c'.id (labelOf clusters c'.id)
        (papers.filter (fun p => p.cluster == c'.id)) gmax).classification =
        "declining") :
    ∀ (cs : List TCluster) (r : TrendResult),
      (∀ t ∈ r.emerging, t.cluster_id ≠ cid) →
      (∀ t ∈ r.stable, t.cluster_id ≠ cid) →
      (∀ t ∈ (cs.foldl (trendStep papers clusters gmax) r).emerging,
        t.cluster_id ≠ cid) ∧
      (∀ t ∈ (cs.foldl (trendStep papers clusters gmax) r).stable,
        t.cluster_id ≠ cid) ∧
      (((∃ t ∈ r.declining, t.cluster_id = cid) ∨
          (∃ c' ∈ cs, c'.id = cid ∧ c'.id ≠ -1 ∧
            (papers.filter (fun p => p.cluster == c'.id)) ≠ [])) →
        ∃ t ∈ (cs.foldl (trendStep papers clusters gmax) r).declining,
          t.cluster_id = cid) := by
  intro cs
  induction cs with
  | nil =>
      intro r hem hst
      refine ⟨hem, hst, ?_⟩
      intro h
      rcases h with h | h
      · exact h
      · obtain ⟨c', hc', _⟩ := h; cases hc'
  | cons c' t ih =>
      intro r hem hst
      simp only [List.foldl_cons]
      -- analyse one step
      have step :
          (∀ u ∈ (trendStep papers clusters gmax r c').emerging, u.cluster_id ≠ cid) ∧
          (∀ u ∈ (trendStep papers clusters gmax r c').stable, u.cluster_id ≠ cid) ∧
          (∀ u ∈ r.declining, u ∈ (trendStep papers clusters gmax r c').declining) ∧
          ((c'.id = cid ∧ c'.id ≠ -1 ∧
              (papers.filter (fun p => p.cluster == c'.id)) ≠ []) →
            ∃ u ∈ (trendStep papers clusters gmax r c').declining,
              u.cluster_id = cid) := by
        unfold trendStep
        by_cases h1 : c'.id = -1
        · rw [if_pos h1]
          exact ⟨hem, hst, fun u hu => hu, by

            rintro ⟨_, hne, _⟩; exact absurd h1 hne⟩
        · rw [if_neg h1]
          dsimp only
          by_cases h2 : (papers.filter (fun p => p.cluster == c'.id)) = []
          · rw [if_pos h2]
            exact ⟨hem, hst, fun u hu => hu, by
              rintro ⟨_, _, hne⟩; exact absurd h2 hne⟩
          · rw [if_neg h2]
            by_cases hcc : c'.id = cid
            · -- this entry classifies declining
              have hd := hdecl c' hcc h2
              rw [if_neg (by rw [hd]; decide), if_neg (by rw [hd]; decide)]
              refine ⟨hem, hst, fun u hu => List.mem_append.mpr (Or.inl hu), ?_⟩
              intro _
              refine ⟨analyzeCluster c'.id (labelOf clusters c'.id)
                (papers.filter (fun p => p.cluster == c'.id)) gmax,
                List.mem_append.mpr (Or.inr (List.mem_singleton.mpr rfl)), ?_⟩
              rw [analyzeCluster_cluster_id]
              exact hcc
            · -- a different cluster id: whatever list it lands in is safe
              split
              · refine ⟨?_, hst, fun u hu => hu, by rintro ⟨hc, _, _⟩; exact absurd hc hcc⟩
                intro u hu
                rcases List.mem_append.mp hu with h | h
                · exact hem u h
                · rw [List.mem_singleton] at h
                  subst h
                  rw [analyzeCluster_cluster_id]
                  exact hcc
              · split
                · refine ⟨hem, ?_, fun u hu => hu, by rintro ⟨hc, _, _⟩; exact absurd hc hcc⟩
                  intro u hu
                  rcases List.mem_append.mp hu with h | h
                  · exact hst u h
                  · rw [List.mem_singleton] at h
                    subst h
                    rw [analyzeCluster_cluster_id]
                    exact hcc
                · refine ⟨hem, hst, fun u hu => List.mem_append.mpr (Or.inl hu), ?_⟩
                  rintro ⟨hc, _, _⟩
                  exact absurd hc hcc
      obtain ⟨sem, sst, sdec, swit⟩ := step
      have := ih (trendStep papers clusters gmax r c') sem sst
      refine ⟨this.1, this.2.1, ?_⟩
      intro h
      apply this.2.2
      rcases h with h | h
      · obtain ⟨u, hu, hcu⟩ := h
        exact Or.inl ⟨u, sdec u hu, hcu⟩
      · obtain ⟨c'', hc'', hprops⟩ := h
        rcases List.mem_cons.mp hc'' with h' | h'
        · subst h'
          obtain ⟨u, hu, hcu⟩ := swit hprops
          exact Or.inl ⟨u, hu, hcu⟩
        · exact Or.inr ⟨c'', h', hprops⟩

/-- C6: a (non-noise) cluster containing at least one paper with a
known year, all of whose papers' known years are ≤ `global_max_year − 3`,
is classified `declining` by `analyze_trends` — it produces a trend in
the `declining` bucket and none in `emerging` or `stable`. -/
theorem analyze_trends_declining (papers : List TPaper) (clusters : List TCluster)
    (c : TCluster) (hc : c ∈ clusters) (hcid : c.id ≠ -1)
    (hex : ∃ p ∈ papers, p.cluster = c.id ∧ (truthyYear p).isSome)
    (hall : ∀ p ∈ papers, p.cluster = c.id →
      ∀ y : Int, truthyYear p = some y → y ≤ globalMaxYear papers - 3) :
    (∃ t ∈ (analyze_trends papers clusters).declining, t.cluster_id = c.id) ∧
      (∀ t ∈ (analyze_trends papers clusters).emerging, t.cluster_id ≠ c.id) ∧
      (∀ t ∈ (analyze_trends papers clusters).stable, t.cluster_id ≠ c.id) := by
  obtain ⟨p, hp, hpc, hpy⟩ := hex
  obtain ⟨y, hy⟩ := Option.isSome_iff_exists.mp hpy
  have hpapers : papers ≠ [] := by intro h; rw [h] at hp; cases hp
  have hclusters : clusters ≠ [] := by intro h; rw [h] at hc; cases hc
  have hyears : papers.filterMap truthyYear ≠ [] := by
    intro h
    have : y ∈ papers.filterMap truthyYear :=
      List.mem_filterMap.mpr ⟨p, hp, hy⟩
    rw [h] at this
    cases this
  have hfiltne : ∀ c' : TCluster, c'.id = c.id →
      (papers.filter (fun p => p.cluster == c'.id)) ≠ [] := by
    intro c' hcc h
    have : p ∈ papers.filter (fun p => p.cluster == c'.id) := by
      rw [List.mem_filter]
      exact ⟨hp, by simp [hpc, hcc]⟩
    rw [h] at this
    cases this
  have hdecl : ∀ c' : TCluster, c'.id = c.id →
      (papers.filter (fun p => p.cluster == c'.id)) ≠ [] →
      (analyzeCluster c'.id (labelOf clusters c'.id)
        (papers.filter (fun p => p.cluster == c'.id)) (globalMaxYear papers)).classification =
        "declining" := by
    intro c' hcc _
    apply analyzeCluster_declining
    · refine ⟨p, ?_, hpy⟩
      rw [List.mem_filter]
      exact ⟨hp, by simp [hpc, hcc]⟩
    · intro q hq yq hyq
      rw [List.mem_filter] at hq
      obtain ⟨hq, hqc⟩ := hq
      have : q.cluster = c.id := by
        have := hqc
        rw [hcc] at this
        simpa using this
      exact hall q hq this yq hyq
  have hfold := trendFold_spec papers clusters (globalMaxYear papers) c.id hdecl
    clusters ⟨[], [], []⟩ (by intro t ht; cases ht) (by intro t ht; cases ht)
  unfold analyze_trends
  rw [if_neg (by simp [hpapers, hclusters]), if_neg hyears]
  dsimp only
  refine ⟨?_, ?_, ?_⟩
  · obtain ⟨t, ht, hct⟩ := hfold.2.2
      (Or.inr ⟨c, hc, rfl, hcid, hfiltne c rfl⟩)
    exact ⟨t, ((List.perm_insertionSort _ _).mem_iff).mpr ht, hct⟩
  · intro t ht
    exact hfold.1 t (((List.perm_insertionSort _ _).mem_iff).mp ht)
  · intro t ht
    exact hfold.2.1 t (((List.perm_insertionSort _ _).mem_iff).mp ht)

/-- Witness for C6: a cluster whose only paper is from 2015 against a
global maximum year of 2024 lands in `declining`. -/
theorem analyze_trends_declining_witness :
    (∃ t ∈ (analyze_trends
        [⟨"p1", some 2015, 3, 0⟩, ⟨"p2", some 2024, 5, 1⟩]
        [⟨0, "old"⟩, ⟨1, "new"⟩]).declining, t.cluster_id = (0 : Int)) ∧
      (∀ t ∈ (analyze_trends
        [⟨"p1", some 2015, 3, 0⟩, ⟨"p2", some 2024, 5, 1⟩]
        [⟨0, "old"⟩, ⟨1, "new"⟩]).emerging, t.cluster_id ≠ (0 : Int)) ∧
      (∀ t ∈ (analyze_trends
        [⟨"p1", some 2015, 3, 0⟩, ⟨"p2", some 2024, 5, 1⟩]
        [⟨0, "old"⟩, ⟨1, "new"⟩]).stable, t.cluster_id ≠ (0 : Int)) := by
  apply analyze_trends_declining
    [⟨"p1", some 2015, 3, 0⟩, ⟨"p2", some 2024, 5, 1⟩]
    [⟨0, "old"⟩, ⟨1, "new"⟩] ⟨0, "old"⟩
    (List.mem_cons_self _ _) (by decide)
  · exact ⟨⟨"p1", some 2015, 3, 0⟩, List.mem_cons_self _ _, rfl, by decide⟩
  · intro q hq hqc yq hyq
    have hmax : globalMaxYear [⟨"p1", some 2015, 3, 0⟩, ⟨"p2", some 2024, 5, 1⟩] =
        2024 := by decide
    rw [hmax]
    fin_cases hq
    · obtain rfl : yq = 2015 := by simpa [truthyYear] using hyq.symm
      decide
    · simp at hqc

theorem refStep_len (src : String) (s2set : List String)
    (s2map : List (String × String)) (st : EnrichState) (r : Ref)
    (st' : EnrichState) (h : refStep src s2set s2map st r = .ok st') :
    st'.edges.length + st.added = st.edges.length + st'.added := by
  unfold refStep at h
  split at h
  · split at h
    · cases h
    · dsimp only at h
      split at h
      · cases h; ring
      · cases h
        simp only [List.length_append, List.length_singleton]
        ring
  · cases h; ring

theorem refsFold_len (src : String) (s2set : List String)
    (s2map : List (String × String)) :
    ∀ (refs : List Ref) (st : EnrichState),
      (refsFold src s2set s2map st refs).1.edges.length + st.added =
        st.edges.length + (refsFold src s2set s2map st refs).1.added := by
  intro refs
  induction refs with
  | nil => intro st; rfl
  | cons r rs ih =>
      intro st
      unfold refsFold
      cases hstep : refStep src s2set s2map st r with
      | error e => rfl
      | ok st' =>
          dsimp only
          have h1 := refStep_len src s2set s2map st r st' hstep
          have h2 := ih st'
          omega

theorem paperStep_len (fetch : String → Except Unit (List Ref))
    (s2set : List String) (s2map : List (String × String))
    (st : EnrichState) (sid : String) :
    (paperStep fetch s2set s2map st sid).edges.length + st.added =
      st.edges.length + (paperStep fetch s2set s2map st sid).added := by
  cases hf : fetch sid with
  | error e => simp [paperStep, hf]
  | ok refs =>
      cases hg : dget? s2map sid with
      | none => simp [paperStep, hf, hg]
      | some src =>
          have h := refsFold_len src s2set s2map refs st
          cases hres : refsFold src s2set s2map st refs with
          | mk st' b =>
              rw [hres] at h
              cases b <;> simp only [paperStep, hf, hg, hres] <;> simpa using h

theorem enrichFold_len (fetch : String → Except Unit (List Ref))
    (s2set : List String) (s2map : List (String × String)) :
    ∀ (l : List String) (st : EnrichState),
      (l.foldl (paperStep fetch s2set s2map) st).edges.length + st.added =
        st.edges.length + (l.foldl (paperStep fetch s2set s2map) st).added := by
  intro l
  induction l with
  | nil => intro st; rfl
  | cons sid rest ih =>
      intro st
      rw [List.foldl_cons]
      have h1 := paperStep_len fetch s2set s2map st sid
      have h2 := ih (paperStep fetch s2set s2map st sid)
      omega

theorem paperStep_error (fetch : String → Except Unit (List Ref))
    (s2set : List String) (s2map : List (String × String))
    (st : EnrichState) (bad : String) (hbad : fetch bad = .error ()) :
    paperStep fetch s2set s2map st bad = { st with failed := st.failed + 1 } := by
  unfold paperStep
  rw [hbad]

/-- C5: in the background citation-enrichment task, (1) the cache
write fires exactly when the DB is connected AND at least one new
citation edge was added; (2) `citation_edges_added` counts exactly the
edges appended beyond the initial edge list, so `added > 0` means a new
edge was actually produced; (3) a per-paper fetch that raises is
counted in `failed_count` and otherwise leaves the state unchanged —
in particular it adds no edge and cannot trigger the write by itself;
(4) such a failure does not abort the loop: the remaining papers are
processed exactly as they would be from the post-failure state. -/
theorem enrich_citations_spec (fetch : String → Except Unit (List Ref))
    (nodes : List SNode) (s2_paper_ids : List String)
    (s2map : List (String × String)) (edges0 : List GraphEdge)
    (dbConnected : Bool) :
    (enrichWrite dbConnected fetch nodes s2_paper_ids s2map edges0 = true ↔
      dbConnected = true ∧
        0 < (enrichRun fetch nodes s2_paper_ids s2map edges0).added) ∧
    ((enrichRun fetch nodes s2_paper_ids s2map edges0).edges.length =
      edges0.length + (enrichRun fetch nodes s2_paper_ids s2map edges0).added) ∧
    (∀ (st : EnrichState) (bad : String), fetch bad = .error () →
      paperStep fetch s2_paper_ids s2map st bad =
        { st with failed := st.failed + 1 }) ∧
    (∀ (st : EnrichState) (pre post : List String) (bad : String),
      fetch bad = .error () →
      (pre ++ bad :: post).foldl (paperStep fetch s2_paper_ids s2map) st =
        post.foldl (paperStep fetch s2_paper_ids s2map)
          { pre.foldl (paperStep fetch s2_paper_ids s2map) st with
            failed := (pre.foldl (paperStep fetch s2_paper_ids s2map) st).failed + 1 }) := by
  refine ⟨?_, ?_, ?_, ?_⟩
  · unfold enrichWrite
    simp [Bool.and_eq_true, decide_eq_true_iff]
  · have h := enrichFold_len fetch s2_paper_ids s2map (batchIds nodes)
      ⟨edges0, keysOf edges0, 0, 0⟩
    dsimp only at h
    unfold enrichRun
    dsimp only
    omega
  · intro st bad hbad
    exact paperStep_error fetch s2_paper_ids s2map st bad hbad
  · intro st pre post bad hbad
    rw [List.foldl_append, List.foldl_cons,
      paperStep_error fetch s2_paper_ids s2map _ bad hbad]

/-- Witness for C5 at a concrete failing fetch: the error-skip clause
evaluated at a one-element batch. -/
theorem enrich_citations_spec_witness :
    paperStep fetchC5 ["s-a"] [("s-a", "n-a")]
        (⟨[], [], 0, 0⟩ : EnrichState) "s-bad" =
      { (⟨[], [], 0, 0⟩ : EnrichState) with
        failed := (⟨[], [], 0, 0⟩ : EnrichState).failed + 1 } :=
  (enrich_citations_spec fetchC5 [] ["s-a"] [("s-a", "n-a")] [] true).2.2.1
    (⟨[], [], 0, 0⟩ : EnrichState) "s-bad" rfl

/-- C9: with fewer than two embedding rows, compute_edges returns the
empty edge list, for every threshold and every max_edges_per_node. -/
theorem compute_edges_small_input (embeddings : List (List ℝ))
    (paper_ids : List String) (threshold : ℝ) (max_edges_per_node : ℕ)
    (h : embeddings.length < 2) :
    compute_edges embeddings paper_ids threshold max_edges_per_node = [] := by
  unfold compute_edges
  rw [if_pos h]

/-- Witness for C9 at a single-row input. -/
theorem compute_edges_small_input_witness :
    compute_edges [[1]] ["a"] (7 / 10) 10 = [] :=
  compute_edges_small_input [[1]] ["a"] (7 / 10) 10 (by simp)

/-- C10: place_new_paper returns exactly (0, 0, 0) — for every value of
the jitter draws, so no jitter is applied — whenever the existing-node
list is empty, or no existing node has both an embedding and an x
coordinate, or the new embedding has zero norm. -/
theorem place_new_paper_early (new_embedding : List ℝ)
    (existing_nodes : List LNode) (k : ℕ) (jx jy jz : ℝ)
    (h : existing_nodes = [] ∨
      existing_nodes.filter (fun n => n.embedding.isSome && n.x.isSome) = [] ∨
      npNorm new_embedding = 0) :
    place_new_paper new_embedding existing_nodes k jx jy jz = (0, 0, 0) := by
  unfold place_new_paper
  rcases h with h | h | h
  · rw [if_pos (by simp [h])]
  · by_cases h0 : existing_nodes.isEmpty
    · rw [if_pos h0]
    · rw [if_neg h0]
      dsimp only
      rw [if_pos (by simp [h])]
  · by_cases h0 : existing_nodes.isEmpty
    · rw [if_pos h0]
    · rw [if_neg h0]
      dsimp only
      by_cases h1 : (existing_nodes.filter (fun n => n.embedding.isSome && n.x.isSome)).isEmpty
      · rw [if_pos h1]
      · rw [if_neg h1, if_pos h]

/-- Witness for C10: empty node list, nonzero jitter draws. -/
theorem place_new_paper_early_witness :
    place_new_paper [1] [] 3 5 7 11 = (0, 0, 0) :=
  place_new_paper_early [1] [] 3 5 7 11 (Or.inl rfl)

theorem dgetD_dset_self (m : List (String × ℕ)) (a : String) (b : ℕ) (d : ℕ) :
    dgetD (dset m a b) a d = b := by
  unfold dgetD
  rw [dget?_dset_self]
  rfl

theorem dgetD_dset_ne (m : List (String × ℕ)) {a c : String} (b : ℕ) (d : ℕ)
    (h : a ≠ c) : dgetD (dset m a b) c d = dgetD m c d := by
  unfold dgetD
  rw [dget?_dset_ne _ _ h]

theorem sumSq_nonneg (v : List ℝ) : 0 ≤ (v.map (fun a => a ^ 2)).sum := by
  apply List.sum_nonneg
  intro x hx
  obtain ⟨a, _, rfl⟩ := List.mem_map.mp hx
  exact sq_nonneg a

theorem dotR_eq_sum_range (a : List ℝ) :
    ∀ b : List ℝ, dotR a b =
      ∑ i ∈ Finset.range (min a.length b.length), a.getD i 0 * b.getD i 0 := by
  induction a with
  | nil => intro b; simp [dotR]
  | cons x xs ih =>
      intro b
      cases b with
      | nil => simp [dotR]
      | cons y ys =>
          simp only [dotR, List.zip_cons_cons, List.map_cons, List.sum_cons,
            List.length_cons, Nat.succ_min_succ, Finset.sum_range_succ',
            List.getD_cons_succ, List.getD_cons_zero]
          rw [← dotR, ih ys]
          ring

theorem sumSq_eq_sum_range (a : List ℝ) :
    (a.map (fun x => x ^ 2)).sum =
      ∑ i ∈ Finset.range a.length, a.getD i 0 ^ 2 := by
  induction a with
  | nil => simp
  | cons x xs ih =>
      simp only [List.map_cons, List.sum_cons, List.length_cons,
        Finset.sum_range_succ', List.getD_cons_succ, List.getD_cons_zero, ih]
      ring

theorem dotR_sq_le (a b : List ℝ) :
    (dotR a b) ^ 2 ≤ (a.map (fun x => x ^ 2)).sum * (b.map (fun x => x ^ 2)).sum := by
  rw [dotR_eq_sum_range, sumSq_eq_sum_range, sumSq_eq_sum_range]
  refine (Finset.sum_mul_sq_le_sq_mul_sq _ _ _).trans ?_
  have h1 : ∑ i ∈ Finset.range (min a.length b.length), a.getD i 0 ^ 2 ≤
      ∑ i ∈ Finset.range a.length, a.getD i 0 ^ 2 :=
    Finset.sum_le_sum_of_subset_of_nonneg
      (Finset.range_subset.mpr (min_le_left _ _)) (fun i _ _ => sq_nonneg _)
  have h2 : ∑ i ∈ Finset.range (min a.length b.length), b.getD i 0 ^ 2 ≤
      ∑ i ∈ Finset.range b.length, b.getD i 0 ^ 2 :=
    Finset.sum_le_sum_of_subset_of_nonneg
      (Finset.range_subset.mpr (min_le_right _ _)) (fun i _ _ => sq_nonneg _)
  exact mul_le_mul h1 h2 (Finset.sum_nonneg fun i _ => sq_nonneg _)
    (Finset.sum_nonneg fun i _ => sq_nonneg _)

theorem sumSq_map_div (r : List ℝ) (c : ℝ) :
    ((r.map (fun a => a / c)).map (fun x => x ^ 2)).sum =
      (r.map (fun x => x ^ 2)).sum / c ^ 2 := by
  induction r with
  | nil => simp
  | cons x xs ih =>
      simp only [List.map_cons, List.sum_cons, ih, div_pow, add_div]

theorem sumSq_normRow_le_one (r : List ℝ) :
    ((normRow r).map (fun x => x ^ 2)).sum ≤ 1 := by
  unfold normRow
  dsimp only
  by_cases h : npNorm r = 0
  · rw [if_pos h]
    have hsq : (r.map (fun x => x ^ 2)).sum = 0 := by
      unfold npNorm at h
      exact (Real.sqrt_eq_zero (sumSq_nonneg r)).mp h
    rw [sumSq_map_div, hsq]
    norm_num
  · rw [if_neg h, sumSq_map_div]
    have hS0 : 0 ≤ (r.map (fun x => x ^ 2)).sum := sumSq_nonneg r
    have hpow : npNorm r ^ 2 = (r.map (fun x => x ^ 2)).sum := Real.sq_sqrt hS0
    rw [hpow]
    have hne : (r.map (fun x => x ^ 2)).sum ≠ 0 := by
      intro h0
      apply h
      unfold npNorm
      rw [h0, Real.sqrt_zero]
    rw [div_self hne]

theorem dotR_bounds_of_sumSq (u v : List ℝ)
    (hu : (u.map (fun x => x ^ 2)).sum ≤ 1)
    (hv : (v.map (fun x => x ^ 2)).sum ≤ 1) :
    -1 ≤ dotR u v ∧ dotR u v ≤ 1 := by
  have h := dotR_sq_le u v
  have h1 : (dotR u v) ^ 2 ≤ 1 := by
    refine h.trans ?_
    have := mul_le_mul hu hv (sumSq_nonneg v) zero_le_one
    simpa using this
  constructor
  · nlinarith [sq_nonneg (dotR u v + 1)]
  · nlinarith [sq_nonneg (dotR u v - 1)]

theorem simMatrix_entry_le_one (rows : List (List ℝ)) (x : List ℝ) (y : ℝ)
    (hx : x ∈ (rows.map normRow).map (fun r => (rows.map normRow).map (fun c => dotR r c)))
    (hy : y ∈ x) : y ≤ 1 := by
  obtain ⟨r, hr, rfl⟩ := List.mem_map.mp hx
  obtain ⟨c, hc, rfl⟩ := List.mem_map.mp hy
  obtain ⟨r0, _, rfl⟩ := List.mem_map.mp hr
  obtain ⟨c0, _, rfl⟩ := List.mem_map.mp hc
  exact (dotR_bounds_of_sumSq _ _ (sumSq_normRow_le_one r0) (sumSq_normRow_le_one c0)).2

theorem sims_getD_le_one (M : List (List ℝ)) (hM : ∀ x ∈ M, ∀ y ∈ x, y ≤ 1)
    (i j : ℕ) : ((M.getD i []).set i (-1)).getD j 0 ≤ 1 := by
  by_cases hj : j < ((M.getD i []).set i (-1)).length
  · have hmem : ((M.getD i []).set i (-1)).getD j 0 ∈ (M.getD i []).set i (-1) := by
      rw [List.getD_eq_get _ _ hj]
      exact List.get_mem _ _ _
    rcases List.mem_or_eq_of_mem_set hmem with hmem' | he
    · by_cases hi : i < M.length
      · refine hM (M.getD i []) ?_ _ hmem'
        rw [List.getD_eq_get _ _ hi]
        exact List.get_mem _ _ _
      · rw [List.getD_eq_default _ _ (le_of_not_lt hi)] at hmem'
        cases hmem'
    · rw [he]
      norm_num
  · rw [List.getD_eq_default _ _ (le_of_not_lt hj)]
    exact zero_le_one

theorem countE_append_singleton (es : List SimEdge) (e : SimEdge) (s : String) :
    countE (es ++ [e]) s =
      countE es s + (if e.source == s || e.target == s then 1 else 0) := by
  unfold countE
  rw [List.filter_append, List.length_append]
  congr 1
  simp only [List.filter]
  split <;> rename_i hq <;> simp [hq]

theorem edgeStep_inv (ids : List String) (sims : List ℝ) (mepn i j : ℕ)
    (threshold : ℝ) (ht : 0 ≤ threshold)
    (hj : threshold ≤ sims.getD j 0) (hj1 : sims.getD j 0 ≤ 1)
    (st : List SimEdge × List (String × ℕ))
    (hE : ∀ e ∈ st.1, 0 ≤ e.similarity ∧ e.similarity ≤ 1)
    (hD : simInv mepn st) :
    (∀ e ∈ (edgeStep ids sims mepn i st j).1,
      0 ≤ e.similarity ∧ e.similarity ≤ 1) ∧
      simInv mepn (edgeStep ids sims mepn i st j) := by
  unfold edgeStep
  split
  · dsimp only
    split
    · exact ⟨hE, hD⟩
    · split
      · exact ⟨hE, hD⟩
      · rename_i hlt hsrc htgt
        rw [not_le] at hsrc htgt
        constructor
        · intro e he
          rcases List.mem_append.mp he with h' | h'
          · exact hE e h'
          · rw [List.mem_singleton] at h'
            subst h'
            exact ⟨le_trans ht hj, hj1⟩
        · intro s
          rw [countE_append_singleton]
          have hcs1 := (hD s).1
          have hcs2 := (hD s).2
          by_cases hS : ids.getD i "" = s
          · have hcond : ((ids.getD i "" == s) || (ids.getD j "" == s)) = true := by
              rw [hS]
              simp
            rw [hcond, if_pos rfl]
            subst hS
            by_cases hT : ids.getD j "" = ids.getD i ""
            · rw [hT, dgetD_dset_self, dgetD_dset_self]
              constructor <;> omega
            · rw [dgetD_dset_ne _ _ _ (fun hh => hT hh), dgetD_dset_self]
              constructor <;> omega
          · by_cases hT : ids.getD j "" = s
            · have hcond : ((ids.getD i "" == s) || (ids.getD j "" == s)) = true := by
                rw [hT]
                simp
              rw [hcond, if_pos rfl]
              subst hT
              have hcs1' := (hD (ids.getD j "")).1
              rw [dgetD_dset_self, dgetD_dset_ne _ _ _ (fun hh => hS hh)]
              constructor <;> omega
            · have hcond : ((ids.getD i "" == s) || (ids.getD j "" == s)) = false := by
                simp only [Bool.or_eq_false_iff, beq_eq_false_iff_ne, ne_eq]
                exact ⟨hS, hT⟩
              rw [hcond]
              simp only [Bool.false_eq_true, if_false, add_zero]
              rw [dgetD_dset_ne _ _ _ (fun hh => hT hh),
                dgetD_dset_ne _ _ _ (fun hh => hS hh)]
              exact ⟨hcs1, hcs2⟩
  · exact ⟨hE, hD⟩

theorem foldl_edgeStep_inv (ids : List String) (sims : List ℝ) (mepn i : ℕ)
    (threshold : ℝ) (ht : 0 ≤ threshold)
    (hsims1 : ∀ j : ℕ, sims.getD j 0 ≤ 1) :
    ∀ (top : List ℕ) (st : List SimEdge × List (String × ℕ)),
      (∀ j ∈ top, threshold ≤ sims.getD j 0) →
      (∀ e ∈ st.1, 0 ≤ e.similarity ∧ e.similarity ≤ 1) →
      simInv mepn st →
      (∀ e ∈ (top.foldl (edgeStep ids sims mepn i) st).1,
        0 ≤ e.similarity ∧ e.similarity ≤ 1) ∧
        simInv mepn (top.foldl (edgeStep ids sims mepn i) st) := by
  intro top
  induction top with
  | nil => intro st _ hE hD; exact ⟨hE, hD⟩
  | cons j rest ih =>
      intro st htop hE hD
      rw [List.foldl_cons]
      have hstep := edgeStep_inv ids sims mepn i j threshold ht
        (htop j (List.mem_cons_self _ _)) (hsims1 j) st hE hD
      exact ih _ (fun j' hj' => htop j' (List.mem_cons_of_mem _ hj'))
        hstep.1 hstep.2

theorem rowStep_inv (ids : List String) (M : List (List ℝ))
    (threshold : ℝ) (mepn : ℕ) (ht : 0 ≤ threshold)
    (hM : ∀ x ∈ M, ∀ y ∈ x, y ≤ 1)
    (st : List SimEdge × List (String × ℕ)) (i : ℕ)
    (hE : ∀ e ∈ st.1, 0 ≤ e.similarity ∧ e.similarity ≤ 1)
    (hD : simInv mepn st) :
    (∀ e ∈ (rowStep ids M threshold mepn st i).1,
      0 ≤ e.similarity ∧ e.similarity ≤ 1) ∧
      simInv mepn (rowStep ids M threshold mepn st i) := by
  unfold rowStep
  dsimp only
  split
  · exact ⟨hE, hD⟩
  · apply foldl_edgeStep_inv ids _ mepn i threshold ht
      (fun j => sims_getD_le_one M hM i j) _ st ?_ hE hD
    intro j hjtop
    have hjsorted := List.mem_of_mem_take hjtop
    rw [List.mem_reverse] at hjsorted
    have hjabove := (List.perm_insertionSort _ _).mem_iff.mp hjsorted
    have := List.mem_filter.mp hjabove
    exact of_decide_eq_true this.2

theorem foldl_rowStep_inv (ids : List String) (M : List (List ℝ))
    (threshold : ℝ) (mepn : ℕ) (ht : 0 ≤ threshold)
    (hM : ∀ x ∈ M, ∀ y ∈ x, y ≤ 1) :
    ∀ (l : List ℕ) (st : List SimEdge × List (String × ℕ)),
      (∀ e ∈ st.1, 0 ≤ e.similarity ∧ e.similarity ≤ 1) →
      simInv mepn st →
      (∀ e ∈ (l.foldl (rowStep ids M threshold mepn) st).1,
        0 ≤ e.similarity ∧ e.similarity ≤ 1) ∧
        simInv mepn (l.foldl (rowStep ids M threshold mepn) st) := by
  intro l
  induction l with
  | nil => intro st hE hD; exact ⟨hE, hD⟩
  | cons i rest ih =>
      intro st hE hD
      rw [List.foldl_cons]
      have hstep := rowStep_inv ids M threshold mepn ht hM st i hE hD
      exact ih _ hstep.1 hstep.2

theorem edgeStep_deg (ids : List String) (sims : List ℝ) (mepn i j : ℕ)
    (st : List SimEdge × List (String × ℕ)) (hD : simInv mepn st) :
    simInv mepn (edgeStep ids sims mepn i st j) := by
  unfold edgeStep
  split
  · dsimp only
    split
    · exact hD
    · split
      · exact hD
      · rename_i hlt hsrc htgt
        rw [not_le] at hsrc htgt
        intro s
        rw [countE_append_singleton]
        have hcs1 := (hD s).1
        have hcs2 := (hD s).2
        by_cases hS : ids.getD i "" = s
        · have hcond : ((ids.getD i "" == s) || (ids.getD j "" == s)) = true := by
            rw [hS]
            simp
          rw [hcond, if_pos rfl]
          subst hS
          by_cases hT : ids.getD j "" = ids.getD i ""
          · rw [hT, dgetD_dset_self, dgetD_dset_self]
            constructor <;> omega
          · rw [dgetD_dset_ne _ _ _ (fun hh => hT hh), dgetD_dset_self]
            constructor <;> omega
        · by_cases hT : ids.getD j "" = s
          · have hcond : ((ids.getD i "" == s) || (ids.getD j "" == s)) = true := by
              rw [hT]
              simp
            rw [hcond, if_pos rfl]
            subst hT
            have hcs1' := (hD (ids.getD j "")).1
            rw [dgetD_dset_self, dgetD_dset_ne _ _ _ (fun hh => hS hh)]
            constructor <;> omega
          · have hcond : ((ids.getD i "" == s) || (ids.getD j "" == s)) = false := by
              simp only [Bool.or_eq_false_iff, beq_eq_false_iff_ne, ne_eq]
              exact ⟨hS, hT⟩
            rw [hcond]
            simp only [Bool.false_eq_true, if_false, add_zero]
            rw [dgetD_dset_ne _ _ _ (fun hh => hT hh),
              dgetD_dset_ne _ _ _ (fun hh => hS hh)]
            exact ⟨hcs1, hcs2⟩
  · exact hD

theorem foldl_edgeStep_deg (ids : List String) (sims : List ℝ) (mepn i : ℕ) :
    ∀ (top : List ℕ) (st : List SimEdge × List (String × ℕ)),
      simInv mepn st → simInv mepn (top.foldl (edgeStep ids sims mepn i) st) := by
  intro top
  induction top with
  | nil => intro st hD; exact hD
  | cons j rest ih =>
      intro st hD
      rw [List.foldl_cons]
      exact ih _ (edgeStep_deg ids sims mepn i j st hD)

theorem rowStep_deg (ids : List String) (M : List (List ℝ))
    (threshold : ℝ) (mepn : ℕ)
    (st : List SimEdge × List (String × ℕ)) (i : ℕ)
    (hD : simInv mepn st) : simInv mepn (rowStep ids M threshold mepn st i) := by
  unfold rowStep
  dsimp only
  split
  · exact hD
  · exact foldl_edgeStep_deg ids _ mepn i _ st hD

theorem foldl_rowStep_deg (ids : List String) (M : List (List ℝ))
    (threshold : ℝ) (mepn : ℕ) :
    ∀ (l : List ℕ) (st : List SimEdge × List (String × ℕ)),
      simInv mepn st → simInv mepn (l.foldl (rowStep ids M threshold mepn) st) := by
  intro l
  induction l with
  | nil => intro st hD; exact hD
  | cons i rest ih =>
      intro st hD
      rw [List.foldl_cons]
      exact ih _ (rowStep_deg ids M threshold mepn st i hD)

/-- C4 (amended): if the similarity threshold is nonnegative (the
default is 0.7), every edge produced by compute_edges has similarity
weight within [0, 1]; and — unconditionally, for every threshold — no
paper id occurs as an endpoint (source or target) of more than
max_edges_per_node edges. -/
theorem compute_edges_bounds (embeddings : List (List ℝ))
    (paper_ids : List String) (threshold : ℝ) (max_edges_per_node : ℕ) :
    ((0 : ℝ) ≤ threshold →
      ∀ e ∈ compute_edges embeddings paper_ids threshold max_edges_per_node,
        0 ≤ e.similarity ∧ e.similarity ≤ 1) ∧
    ∀ s : String,
      countE (compute_edges embeddings paper_ids threshold max_edges_per_node) s ≤
        max_edges_per_node := by
  constructor
  · intro ht
    unfold compute_edges
    split
    · intro e he; cases he
    · dsimp only
      exact (foldl_rowStep_inv paper_ids _ threshold max_edges_per_node ht
        (fun x hx y hy => simMatrix_entry_le_one embeddings x y hx hy)
        (List.range (((embeddings.map normRow).map
          (fun r => (embeddings.map normRow).map (fun c => dotR r c))).length))
        ([], [])
        (fun e he => absurd he (List.not_mem_nil e))
        (fun s => by constructor <;> simp [countE, dgetD, dget?])).1
  · intro s
    unfold compute_edges
    split
    · simp [countE]
    · dsimp only
      exact ((foldl_rowStep_deg paper_ids _ threshold max_edges_per_node
        (List.range (((embeddings.map normRow).map
          (fun r => (embeddings.map normRow).map (fun c => dotR r c))).length))
        ([], [])
        (fun s' => by constructor <;> simp [countE, dgetD, dget?])) s).2

/-- C4 counterexample: with threshold −1 and the two opposite
one-dimensional unit embeddings, compute_edges emits one edge whose
similarity weight is −1, outside [0, 1]. -/
theorem compute_edges_negative_weight_counterexample :
    (compute_edges [[1], [-1]] ["a", "b"] (-1) 10).map SimEdge.similarity = [-1] ∧
      ¬ ∀ e ∈ compute_edges [[1], [-1]] ["a", "b"] (-1) 10,
          0 ≤ e.similarity ∧ e.similarity ≤ 1 := by
  have h1 : normRow [(1 : ℝ)] = [1] := by
    unfold normRow npNorm
    norm_num
  have h2 : normRow [(-1 : ℝ)] = [-1] := by
    unfold normRow npNorm
    norm_num
  have heval : compute_edges [[1], [-1]] ["a", "b"] (-1) 10 =
      [⟨"a", "b", -1, "similarity"⟩] := by
    unfold compute_edges
    rw [if_neg (by norm_num)]
    simp only [List.map_cons, List.map_nil, h1, h2]
    norm_num [dotR, rowStep, edgeStep, dgetD, dget?, List.insertionSort,
      List.orderedInsert, List.range_succ, dset]
  refine ⟨by rw [heval]; rfl, ?_⟩
  intro hall
  have h := (hall ⟨"a", "b", -1, "similarity"⟩
    (by rw [heval]; exact List.mem_singleton_self _)).1
  norm_num at h

/-- Witness for C4 at the default threshold 0.7 on two identical rows:
the weight clause with its nonnegativity hypothesis discharged, and the
unconditional degree cap. -/
theorem compute_edges_bounds_witness :
    ((0 : ℝ) ≤ 7 / 10 ∧
      ∀ e ∈ compute_edges [[1], [1]] ["a", "b"] (7 / 10) 10,
        0 ≤ e.similarity ∧ e.similarity ≤ 1) ∧
      ∀ s : String, countE (compute_edges [[1], [1]] ["a", "b"] (7 / 10) 10) s ≤ 10 :=
  ⟨⟨by norm_num,
    (compute_edges_bounds [[1], [1]] ["a", "b"] (7 / 10) 10).1 (by norm_num)⟩,
    (compute_edges_bounds [[1], [1]] ["a", "b"] (7 / 10) 10).2⟩

end ScholarGraph
